import Mathlib

/-!
Verification of the protocol-translation core of the claude_code_proxy
repository: a shallow embedding, in Lean 4, of the Rust functions under
src/conversion, src/core and src/api, together with theorems settling the
frozen claims about them.

Conventions of the embedding:
- Rust machine integers that only count (token counts, indices) are
  modelled as Nat; JSON numbers as Int (the integer fragment; serde's
  float values are outside the fragment exercised by any theorem here).
- serde_json::Value is modelled by the inductive JVal below; the accessor
  methods get/as_str/as_u64/as_array are translated one-to-one.
- serde_json::from_str is an external library call. The streaming
  translator is therefore parameterised over an arbitrary parse function
  String -> Option JVal; universal theorems quantify over it, and
  concrete runs instantiate it with jparse, an executable parser of the
  integer fragment of JSON defined below.
- Rust String operations are modelled on the underlying character list
  (String.data); str::len is UTF-8 byte length, modelled by strLen.
-/

namespace CCProxy

/-- Model of serde_json::Value (numbers restricted to the integer
fragment, which is the only fragment the translated code ever inspects
through as_u64). -/
inductive JVal where
  | null
  | bool (b : Bool)
  | num (n : Int)
  | str (s : String)
  | arr (elems : List JVal)
  | obj (fields : List (String × JVal))

/-- Model of Value::get(key) on an object (None on any other variant),
looking a key up among the object fields. -/
def jGet : JVal → String → Option JVal
  | JVal.obj fields, key =>
    let rec go : List (String × JVal) → Option JVal
      | [] => none
      | (k, v) :: rest => if k = key then some v else go rest
    go fields
  | _, _ => none

/-- Model of Value::as_str. -/
def JVal.as_str : JVal → Option String
  | JVal.str s => some s
  | _ => none

/-- Model of Value::as_u64 (on the integer fragment: defined exactly for
non-negative integer numbers). -/
def JVal.as_u64 : JVal → Option Nat
  | JVal.num n => if 0 ≤ n then some n.toNat else none
  | _ => none

/-- Model of Value::as_array. -/
def JVal.as_array : JVal → Option (List JVal)
  | JVal.arr elems => some elems
  | _ => none

/-- The four JSON whitespace characters (also the ASCII core of Rust's
str::trim). -/
def wsChar (c : Char) : Bool :=
  c = ' ' || c = '\t' || c = '\n' || c = '\r'

/-- Drop whitespace from both ends of a character list. -/
def trimChars (cs : List Char) : List Char :=
  ((cs.dropWhile wsChar).reverse.dropWhile wsChar).reverse

/-- Model of Rust str::trim (restricted to ASCII whitespace). -/
def strTrim (s : String) : String :=
  String.mk (trimChars s.data)

/-- listStartsWith hay pat: hay begins with pat. -/
def listStartsWith : List Char → List Char → Bool
  | _, [] => true
  | [], _ :: _ => false
  | a :: as, b :: bs => a = b && listStartsWith as bs

/-- listContainsSub hay pat: pat occurs contiguously inside hay. -/
def listContainsSub (hay pat : List Char) : Bool :=
  listStartsWith hay pat ||
    match hay with
    | [] => false
    | _ :: t => listContainsSub t pat

/-- Model of Rust str::contains(substring). -/
def strContainsSub (s pat : String) : Bool :=
  listContainsSub s.data pat.data

/-- Model of Rust String::len: the UTF-8 byte length. -/
def strLen (s : String) : Nat :=
  s.data.foldl (fun n c => n + c.utf8Size) 0

/-- Fold a list of digit characters (most significant first) into a Nat. -/
def digitsToNat (ds : List Char) : Nat :=
  ds.foldl (fun n c => 10 * n + (c.toNat - 48)) 0

/-- Parse a JSON number from the head of the input: an optional minus sign
and a nonempty digit run. A following '.', 'e' or 'E' (a float) is
rejected: jparse covers the integer fragment of JSON only. -/
def jparseNum : List Char → Option (Int × List Char)
  | '-' :: cs =>
    let ds := cs.takeWhile Char.isDigit
    let rest := cs.dropWhile Char.isDigit
    if ds.isEmpty then none
    else match rest with
      | '.' :: _ => none
      | 'e' :: _ => none
      | 'E' :: _ => none
      | _ => some (-(digitsToNat ds : Int), rest)
  | cs =>
    let ds := cs.takeWhile Char.isDigit
    let rest := cs.dropWhile Char.isDigit
    if ds.isEmpty then none
    else match rest with
      | '.' :: _ => none
      | 'e' :: _ => none
      | 'E' :: _ => none
      | _ => some ((digitsToNat ds : Int), rest)

/-- Parse the body of a JSON string after the opening quote, handling the
single-character escapes; a unicode escape is outside the fragment. -/
def jparseStr : Nat → List Char → Option (String × List Char)
  | 0, _ => none
  | _ + 1, [] => none
  | fuel + 1, c :: rest =>
    if c = '"' then some ("", rest)
    else if c = '\\' then
      match rest with
      | [] => none
      | e :: rest2 =>
        let ch : Option Char :=
          if e = '"' then some '"'
          else if e = '\\' then some '\\'
          else if e = '/' then some '/'
          else if e = 'n' then some '\n'
          else if e = 't' then some '\t'
          else if e = 'r' then some '\r'
          else none
        match ch with
        | none => none
        | some ch =>
          match jparseStr fuel rest2 with
          | none => none
          | some (s, r) => some (String.mk (ch :: s.data), r)
    else
      match jparseStr fuel rest with
      | none => none
      | some (s, r) => some (String.mk (c :: s.data), r)

mutual

/-- Parse one JSON value from the head of the input (whitespace allowed in
front); returns the value and the unconsumed input. -/
def jparseVal : Nat → List Char → Option (JVal × List Char)
  | 0, _ => none
  | fuel + 1, cs =>
    match cs.dropWhile wsChar with
    | [] => none
    | c :: rest =>
      if c = '"' then
        match jparseStr fuel rest with
        | none => none
        | some (s, r) => some (JVal.str s, r)
      else if c = '{' then jparseObjItems fuel rest
      else if c = '[' then jparseArrItems fuel rest
      else if listStartsWith (c :: rest) ['t', 'r', 'u', 'e'] then
        some (JVal.bool true, (c :: rest).drop 4)
      else if listStartsWith (c :: rest) ['f', 'a', 'l', 's', 'e'] then
        some (JVal.bool false, (c :: rest).drop 5)
      else if listStartsWith (c :: rest) ['n', 'u', 'l', 'l'] then
        some (JVal.null, (c :: rest).drop 4)
      else
        match jparseNum (c :: rest) with
        | none => none
        | some (n, r) => some (JVal.num n, r)

/-- Parse the items of a JSON array after the opening bracket. -/
def jparseArrItems : Nat → List Char → Option (JVal × List Char)
  | 0, _ => none
  | fuel + 1, cs =>
    match cs.dropWhile wsChar with
    | ']' :: rest => some (JVal.arr [], rest)
    | cs2 => jparseArrTail fuel cs2

/-- Parse a value and then either a comma and more items or the closing
bracket. -/
def jparseArrTail : Nat → List Char → Option (JVal × List Char)
  | 0, _ => none
  | fuel + 1, cs =>
    match jparseVal fuel cs with
    | none => none
    | some (v, r) =>
      match r.dropWhile wsChar with
      | ',' :: r2 =>
        match jparseArrTail fuel r2 with
        | some (JVal.arr vs, r3) => some (JVal.arr (v :: vs), r3)
        | _ => none
      | ']' :: r2 => some (JVal.arr [v], r2)
      | _ => none

/-- Parse the fields of a JSON object after the opening brace. -/
def jparseObjItems : Nat → List Char → Option (JVal × List Char)
  | 0, _ => none
  | fuel + 1, cs =>
    match cs.dropWhile wsChar with
    | '}' :: rest => some (JVal.obj [], rest)
    | cs2 => jparseObjTail fuel cs2

/-- Parse one key-value pair and then either a comma and more fields or
the closing brace. -/
def jparseObjTail : Nat → List Char → Option (JVal × List Char)
  | 0, _ => none
  | fuel + 1, cs =>
    match cs.dropWhile wsChar with
    | '"' :: rest =>
      match jparseStr fuel rest with
      | none => none
      | some (k, r) =>
        match r.dropWhile wsChar with
        | ':' :: r2 =>
          match jparseVal fuel r2 with
          | none => none
          | some (v, r3) =>
            match r3.dropWhile wsChar with
            | ',' :: r4 =>
              match jparseObjTail fuel r4 with
              | some (JVal.obj fs, r5) => some (JVal.obj ((k, v) :: fs), r5)
              | _ => none
            | '}' :: r4 => some (JVal.obj [(k, v)], r4)
            | _ => none
        | _ => none
    | _ => none

end

/-- Executable parser for the integer fragment of JSON: the whole input
must be consumed (up to trailing whitespace), as serde_json::from_str
requires. Universal theorems below do not depend on it; it instantiates
the abstract parse parameter in concrete runs. -/
def jparse (s : String) : Option JVal :=
  match jparseVal (4 * s.data.length + 16) s.data with
  | some (v, rest) => if (rest.dropWhile wsChar).isEmpty then some v else none
  | none => none

/-! ## Streaming translator (response_converter.rs)

Embedding of convert_openai_streaming_to_claude and its
_with_cancellation variant (response_converter.rs lines 212-484 and
490-791). The two loops emit the same frames from the same state: the
cancellation variant only adds a heartbeat arm whose body is `continue`
and a `cancelled` flag that is never set, so one embedding covers both.
The input is the list of items the translator pulls from the upstream
sequence: Except.error for a failure item, Except.ok for a line. The
output is the list of emitted frames, reified by the Frame type below
(one constructor per yield site, carrying every payload field that is
not a fixed literal at that site). -/

/-- Tool call tracking structure for streaming (struct ToolCallState). -/
structure ToolCallState where
  id : Option String
  name : Option String
  args_buffer : String
  json_sent : Bool
  claude_index : Option Nat
  started : Bool
deriving DecidableEq, Repr

/-- A fresh slot, as inserted when an unseen backend index appears. -/
def freshToolCallState : ToolCallState :=
  { id := none, name := none, args_buffer := "", json_sent := false,
    claude_index := none, started := false }

/-- The usage_data value: built as a two-field object at initialisation
and overwritten with a three-field object on usage capture. -/
structure UsageData where
  input_tokens : Nat
  output_tokens : Nat
  cache_read_input_tokens : Option Nat
deriving DecidableEq, Repr

/-- One emitted SSE frame of the translator, one constructor per yield
site of the source; fixed literal fields (the event name, the prelude
text block's index 0 and empty text, the tool_use start's empty input)
are not repeated as constructor arguments. -/
inductive Frame where
  | message_start (message_id : String) (model : String)
  | content_block_start_text
  | ping
  | content_block_delta_text (index : Nat) (text : String)
  | content_block_start_tool (index : Nat) (id : String) (name : String)
  | content_block_delta_json (index : Nat) (partial_json : String)
  | errorEvt (message : String)
  | content_block_stop (index : Nat)
  | message_delta (stop_reason : String) (usage : UsageData)
  | message_stop
deriving DecidableEq, Repr

/-- The mutable loop state: tool_block_counter, the HashMap of tool call
slots (modelled as an association list in insertion order; the map view
is lookupSlot / updateSlot, which never duplicate a key), the pending
stop reason and usage. -/
structure StreamSt where
  tool_block_counter : Nat
  current_tool_calls : List (Nat × ToolCallState)
  final_stop_reason : String
  usage_data : UsageData
deriving Repr

/-- Lookup in a map kept as an association list. -/
def lookupSlot {α : Type} : List (Nat × α) → Nat → Option α
  | [], _ => none
  | (k, v) :: rest, i => if k = i then some v else lookupSlot rest i

/-- Replace the value stored at a present key. -/
def updateSlot {α : Type} : List (Nat × α) → Nat → α → List (Nat × α)
  | [], _, _ => []
  | (k, v) :: rest, i, nv =>
    if k = i then (k, nv) :: rest else (k, v) :: updateSlot rest i nv

/-- text_block_index, fixed at 0 in both loops. -/
def textBlockIndex : Nat := 0

/-- Initial loop state. -/
def initStreamSt : StreamSt :=
  { tool_block_counter := 0, current_tool_calls := [],
    final_stop_reason := "end_turn",
    usage_data := { input_tokens := 0, output_tokens := 0,
                    cache_read_input_tokens := none } }

/-- Usage capture (source: `if let Some(usage) = chunk.get("usage")`). -/
def updateUsage (st : StreamSt) (chunk : JVal) : StreamSt :=
  match jGet chunk "usage" with
  | none => st
  | some usage =>
    let prompt_tokens := ((jGet usage "prompt_tokens").bind JVal.as_u64).getD 0
    let completion_tokens :=
      ((jGet usage "completion_tokens").bind JVal.as_u64).getD 0
    let cache_tokens :=
      (((jGet usage "prompt_tokens_details").bind
          (fun d => jGet d "cached_tokens")).bind JVal.as_u64).getD 0
    let u : UsageData :=
      { input_tokens := prompt_tokens, output_tokens := completion_tokens,
        cache_read_input_tokens := some cache_tokens }
    { st with usage_data := u }

/-- Finish-reason mapping (source: the match on `reason`). -/
def mapFinishReason (reason : String) : String :=
  if reason = "length" then "max_tokens"
  else if reason = "tool_calls" then "tool_use"
  else if reason = "function_call" then "tool_use"
  else if reason = "stop" then "end_turn"
  else "end_turn"

/-- The id update of one tool_calls entry (source: `if let Some(id) =
tc_delta.get("id").and_then(|i| i.as_str())`). -/
def updateIdStage (tc : JVal) (s : ToolCallState) : ToolCallState :=
  match (jGet tc "id").bind JVal.as_str with
  | some i => { s with id := some i }
  | none => s

/-- The function-name update (source: `if let Some(name) =
func.get("name").and_then(|n| n.as_str())`). -/
def updateNameStage (func : JVal) (s : ToolCallState) : ToolCallState :=
  match (jGet func "name").bind JVal.as_str with
  | some n => { s with name := some n }
  | none => s

/-- The start transition (source: the `if let (Some(id), Some(name))`
block): when id and name are known and the block has not started,
increment the counter, assign the output index, mark started and emit
the content_block_start frame. -/
def startStage (st : StreamSt) (s : ToolCallState) :
    StreamSt × ToolCallState × List Frame :=
  match s.id, s.name with
  | some i, some n =>
    if s.started then (st, s, [])
    else
      let counter := st.tool_block_counter + 1
      let claude_index := textBlockIndex + counter
      ({ st with tool_block_counter := counter },
       { s with claude_index := some claude_index, started := true },
       [Frame.content_block_start_tool claude_index i n])
  | _, _ => (st, s, [])

/-- The argument accumulation (source: the `if let Some(args)` block):
append a non-empty fragment once started; when the buffer parses and no
json delta was sent yet, emit the one input_json_delta and mark it
sent. -/
def argStage (parse : String → Option JVal) (func : JVal)
    (s : ToolCallState) : ToolCallState × List Frame :=
  match (jGet func "arguments").bind JVal.as_str with
  | some args =>
    if s.started = true ∧ args ≠ "" then
      let s2 := { s with args_buffer := s.args_buffer ++ args }
      if (parse s2.args_buffer).isSome = true ∧ s2.json_sent = false then
        match s2.claude_index with
        | some ci =>
          ({ s2 with json_sent := true },
           [Frame.content_block_delta_json ci s2.args_buffer])
        | none => (s2, [])
      else (s2, [])
    else (s, [])
  | none => (s, [])

/-- The per-entry work after the slot is ensured present: update id,
and — only when the entry carries a function object — update the name,
run the start transition and the argument accumulation, writing the
evolved slot back. -/
def processToolDeltaCore (parse : String → Option JVal) (st : StreamSt)
    (tc_index : Nat) (tc : JVal) : StreamSt × List Frame :=
  match lookupSlot st.current_tool_calls tc_index with
  | none => (st, [])
  | some slot0 =>
    let slot1 := updateIdStage tc slot0
    match jGet tc "function" with
    | none =>
      let newMap := updateSlot st.current_tool_calls tc_index slot1
      ({ st with current_tool_calls := newMap }, [])
    | some func =>
      let slot2 := updateNameStage func slot1
      let startStep := startStage st slot2
      let argStep := argStage parse func startStep.2.1
      let newMap := updateSlot startStep.1.current_tool_calls tc_index argStep.1
      ({ startStep.1 with current_tool_calls := newMap },
       startStep.2.2 ++ argStep.2)

/-- Process one entry of delta.tool_calls (the body of
`for tc_delta in tool_calls`): read the backend index, ensure the slot
exists, then run the per-entry work. Returns the new state and the
frames yielded for this entry. -/
def processToolDelta (parse : String → Option JVal) (st : StreamSt)
    (tc : JVal) : StreamSt × List Frame :=
  let tc_index := ((jGet tc "index").bind JVal.as_u64).getD 0
  let st :=
    if (lookupSlot st.current_tool_calls tc_index).isSome then st
    else { st with current_tool_calls :=
            st.current_tool_calls ++ [(tc_index, freshToolCallState)] }
  processToolDeltaCore parse st tc_index tc

/-- The delta.tool_calls handler (`if let Some(tool_calls) = ...
.and_then(|tc| tc.as_array())`, with the non-empty check). -/
def processToolCalls (parse : String → Option JVal) (st : StreamSt)
    (delta : Option JVal) : StreamSt × List Frame :=
  match (delta.bind (fun d => jGet d "tool_calls")).bind JVal.as_array with
  | some tool_calls =>
    if tool_calls.isEmpty then (st, [])
    else
      tool_calls.foldl
        (fun acc tc =>
          let r := processToolDelta parse acc.1 tc
          (r.1, acc.2 ++ r.2))
        (st, [])
  | none => (st, [])

/-- The text content delta handler. -/
def textDeltaFrames (delta : Option JVal) : List Frame :=
  match (delta.bind (fun d => jGet d "content")).bind JVal.as_str with
  | some content_text =>
    if content_text ≠ "" then
      [Frame.content_block_delta_text textBlockIndex content_text]
    else []
  | none => []

/-- How the main loop was left. -/
inductive ExitKind where
  | errExit
  | doneExit
  | finishExit
  | endExit
deriving DecidableEq, Repr

/-- The line made of the six characters the source tests with
starts_with("data: "); on a match returns the payload after them. -/
def dataPayload : List Char → Option (List Char)
  | 'd' :: 'a' :: 't' :: 'a' :: ':' :: ' ' :: rest => some rest
  | _ => none

/-- The [DONE] sentinel test on the trimmed payload. -/
def isDoneSentinel (payload : List Char) : Bool :=
  trimChars payload = ['[', 'D', 'O', 'N', 'E', ']']

/-- The main while/loop of both streaming translators over the pulled
items: returns the final state, the frames yielded inside the loop, and
how the loop was left. A failure item yields the error frame and breaks;
a line is trimmed, skipped when empty or without the data prefix;
the [DONE] sentinel breaks; an unparseable payload is skipped; otherwise
usage is captured, choices[0] is read (skipped when absent or empty),
the text and tool-call deltas are emitted and a present finish_reason is
mapped, stored and breaks the loop. -/
def runLoop (parse : String → Option JVal) :
    StreamSt → List (Except String String) → StreamSt × List Frame × ExitKind
  | st, [] => (st, [], ExitKind.endExit)
  | st, Except.error e :: _ =>
    (st, [Frame.errorEvt ("Stream error: " ++ e)], ExitKind.errExit)
  | st, Except.ok line :: rest =>
    let trimmed := trimChars line.data
    match dataPayload trimmed with
    | none => runLoop parse st rest
    | some payload =>
      if isDoneSentinel payload then (st, [], ExitKind.doneExit)
      else
        match parse (String.mk payload) with
        | none => runLoop parse st rest
        | some chunk =>
          let st1 := updateUsage st chunk
          match (jGet chunk "choices").bind JVal.as_array with
          | some (choice :: _) =>
            let delta := jGet choice "delta"
            let finish_reason := (jGet choice "finish_reason").bind JVal.as_str
            let tf := textDeltaFrames delta
            let r := processToolCalls parse st1 delta
            match finish_reason with
            | some reason =>
              ({ r.1 with final_stop_reason := mapFinishReason reason },
               tf ++ r.2, ExitKind.finishExit)
            | none =>
              let r2 := runLoop parse r.1 rest
              (r2.1, tf ++ r.2 ++ r2.2.1, r2.2.2)
          | some [] => runLoop parse st1 rest
          | none => runLoop parse st1 rest

/-- The three prelude frames, emitted before any input is read. -/
def preludeFrames (message_id original_model : String) : List Frame :=
  [Frame.message_start message_id original_model,
   Frame.content_block_start_text, Frame.ping]

/-- The closing frames: content_block_stop(0); a content_block_stop per
started slot, visited in the order the HashMap's values() iterator
yields them — an order the Rust standard library leaves unspecified, so
the embedding takes it as a parameter valuesOrder constrained (in every
theorem) to enumerate the map's values in some order; then message_delta
and message_stop. -/
def postludeFrames (valuesOrder : List (Nat × ToolCallState) → List ToolCallState)
    (st : StreamSt) : List Frame :=
  Frame.content_block_stop textBlockIndex ::
  ((valuesOrder st.current_tool_calls).filterMap (fun tool_data =>
      if tool_data.started then
        match tool_data.claude_index with
        | some idx => some (Frame.content_block_stop idx)
        | none => none
      else none)) ++
  [Frame.message_delta st.final_stop_reason st.usage_data, Frame.message_stop]

/-- valuesOrder is a legitimate model of HashMap::values: it yields
exactly the stored values, each once, in some order. -/
def ValidValuesOrder
    (valuesOrder : List (Nat × ToolCallState) → List ToolCallState) : Prop :=
  ∀ m, List.Perm (valuesOrder m) (m.map Prod.snd)

/-- The whole streaming translator: prelude, main loop, postlude
(source lines 212-484; identically 490-791). -/
def convert_openai_streaming_to_claude (parse : String → Option JVal)
    (valuesOrder : List (Nat × ToolCallState) → List ToolCallState)
    (message_id original_model : String)
    (input : List (Except String String)) : List Frame :=
  let r := runLoop parse initStreamSt input
  preludeFrames message_id original_model ++ r.2.1 ++ postludeFrames valuesOrder r.1

/-! ## Data model (models/claude.rs, models/openai.rs)

The structs, with HashMap<String, Value> fields modelled as association
lists of JVal and the f32 passthrough scalars (temperature, top_p)
modelled by their bit pattern (they are only ever copied, never
computed with). -/

/-- An f32 that is only carried, never computed: its bit pattern. -/
structure F32 where
  bits : Nat
deriving DecidableEq, Repr

/-- struct ClaudeContentBlockText. -/
structure ClaudeContentBlockText where
  content_type : String
  text : String

/-- struct ClaudeContentBlockImage. -/
structure ClaudeContentBlockImage where
  content_type : String
  source : List (String × JVal)

/-- struct ClaudeContentBlockToolUse. -/
structure ClaudeContentBlockToolUse where
  content_type : String
  id : String
  name : String
  input : List (String × JVal)

/-- enum ToolResultContent. -/
inductive ToolResultContent where
  | strContent (s : String)
  | arrContent (items : List (List (String × JVal)))
  | objContent (fields : List (String × JVal))

/-- struct ClaudeContentBlockToolResult. -/
structure ClaudeContentBlockToolResult where
  content_type : String
  tool_use_id : String
  content : ToolResultContent

/-- enum ClaudeContentBlock. -/
inductive ClaudeContentBlock where
  | text (b : ClaudeContentBlockText)
  | image (b : ClaudeContentBlockImage)
  | toolUse (b : ClaudeContentBlockToolUse)
  | toolResult (b : ClaudeContentBlockToolResult)

/-- struct ClaudeSystemContent. -/
structure ClaudeSystemContent where
  content_type : String
  text : String

/-- enum SystemContent. -/
inductive SystemContent where
  | strSys (s : String)
  | blocksSys (blocks : List ClaudeSystemContent)

/-- enum MessageContent. -/
inductive MessageContent where
  | strMsg (s : String)
  | blocksMsg (blocks : List ClaudeContentBlock)

/-- struct ClaudeMessage. -/
structure ClaudeMessage where
  role : String
  content : MessageContent

/-- struct ClaudeTool. -/
structure ClaudeTool where
  name : String
  description : Option String
  input_schema : List (String × JVal)

/-- struct ClaudeMessagesRequest (the thinking and metadata fields,
read by no translated function, are omitted). -/
structure ClaudeMessagesRequest where
  model : String
  max_tokens : Nat
  messages : List ClaudeMessage
  system : Option SystemContent
  stop_sequences : Option (List String)
  stream : Bool
  temperature : F32
  top_p : Option F32
  top_k : Option Nat
  tools : Option (List ClaudeTool)
  tool_choice : Option (List (String × JVal))

/-- struct ClaudeTokenCountRequest (fields read by count_tokens). -/
structure ClaudeTokenCountRequest where
  model : String
  messages : List ClaudeMessage
  system : Option SystemContent

/-- struct OpenAIFunction. -/
structure OpenAIFunction where
  name : String
  arguments : String

/-- struct OpenAIToolCall. -/
structure OpenAIToolCall where
  id : String
  call_type : String
  function : OpenAIFunction

/-- struct OpenAIMessage. -/
structure OpenAIMessage where
  role : String
  content : Option JVal
  tool_calls : Option (List OpenAIToolCall)
  tool_call_id : Option String

/-- struct OpenAIFunctionDef. -/
structure OpenAIFunctionDef where
  name : String
  description : Option String
  parameters : List (String × JVal)

/-- struct OpenAITool. -/
structure OpenAITool where
  tool_type : String
  function : OpenAIFunctionDef

/-- struct OpenAIStreamOptions. -/
structure OpenAIStreamOptions where
  include_usage : Bool

/-- struct OpenAIChatCompletionRequest. -/
structure OpenAIChatCompletionRequest where
  model : String
  messages : List OpenAIMessage
  max_tokens : Option Nat
  temperature : Option F32
  top_p : Option F32
  stop : Option (List String)
  stream : Bool
  stream_options : Option OpenAIStreamOptions
  tools : Option (List OpenAITool)
  tool_choice : Option JVal

/-- struct OpenAIUsage. -/
structure OpenAIUsage where
  prompt_tokens : Nat
  completion_tokens : Nat
  total_tokens : Nat

/-- struct OpenAIChoice. -/
structure OpenAIChoice where
  index : Nat
  message : OpenAIMessage
  finish_reason : Option String

/-- struct OpenAIChatCompletionResponse. -/
structure OpenAIChatCompletionResponse where
  id : String
  object : String
  created : Int
  model : String
  choices : List OpenAIChoice
  usage : OpenAIUsage

/-! ## JSON serialisation (serde_json::to_string on the embedded values)

Needed by the request converter (tool_use arguments, tool-result
fallbacks). No theorem below depends on its exact output; it is the
embedding of an external library call, emitting the standard compact
form with the fields in stored order. -/

/-- Escape one character for a JSON string literal (the fragment the
embedded values can contain). -/
def jescapeChar (c : Char) : List Char :=
  if c = '"' then ['\\', '"']
  else if c = '\\' then ['\\', '\\']
  else if c = '\n' then ['\\', 'n']
  else if c = '\t' then ['\\', 't']
  else if c = '\r' then ['\\', 'r']
  else [c]

/-- Serialise a string to a JSON string literal. -/
def jserializeStr (s : String) : String :=
  String.mk ('"' :: (s.data.flatMap jescapeChar ++ ['"']))

/-- Join with a separator. -/
def strJoin (sep : String) : List String → String
  | [] => ""
  | [s] => s
  | s :: rest => s ++ sep ++ strJoin sep rest

mutual

/-- serde_json::to_string on a JVal. -/
def jserialize : JVal → String
  | JVal.null => "null"
  | JVal.bool true => "true"
  | JVal.bool false => "false"
  | JVal.num n => toString n
  | JVal.str s => jserializeStr s
  | JVal.arr elems => "[" ++ jserializeElems elems ++ "]"
  | JVal.obj fields => "\x7b" ++ jserializeFields fields ++ "\x7d"

/-- Comma-joined serialised array elements. -/
def jserializeElems : List JVal → String
  | [] => ""
  | [v] => jserialize v
  | v :: rest => jserialize v ++ "," ++ jserializeElems rest

/-- Comma-joined serialised object fields. -/
def jserializeFields : List (String × JVal) → String
  | [] => ""
  | [(k, v)] => jserializeStr k ++ ":" ++ jserialize v
  | (k, v) :: rest =>
    jserializeStr k ++ ":" ++ jserialize v ++ "," ++ jserializeFields rest

end

/-- serde_json::to_string on a HashMap<String, Value>. -/
def jserializeMap (fields : List (String × JVal)) : String :=
  jserialize (JVal.obj fields)

/-! ## Model mapper (core/model_manager.rs) -/

/-- The models section of the configuration consumed by the mapper. -/
structure ModelsConfig where
  big_model : String
  middle_model : String
  small_model : String

/-- Model of char::to_lowercase restricted to the ASCII range exercised
by model names. -/
def strToLower (s : String) : String :=
  String.mk (s.data.map Char.toLower)

/-- ModelManager::map_claude_model_to_openai
(model_manager.rs lines 33-58). -/
def map_claude_model_to_openai (config : ModelsConfig)
    (claude_model : String) : String :=
  if listStartsWith claude_model.data ("gpt-").data
      || listStartsWith claude_model.data ("o1-").data then
    claude_model
  else if listStartsWith claude_model.data ("ep-").data
      || listStartsWith claude_model.data ("doubao-").data
      || listStartsWith claude_model.data ("deepseek-").data then
    claude_model
  else
    let model_lower := strToLower claude_model
    if strContainsSub model_lower ("haiku") then config.small_model
    else if strContainsSub model_lower ("sonnet") then config.middle_model
    else if strContainsSub model_lower ("opus") then config.big_model
    else config.big_model

/-! ## Request converter (conversion/request_converter.rs) -/

/-- parse_tool_result_content (request_converter.rs lines 320-351). -/
def parse_tool_result_content : ToolResultContent → String
  | ToolResultContent.strContent s => s
  | ToolResultContent.arrContent arr =>
    let parts : List String := arr.filterMap (fun item =>
      match (jGet (JVal.obj item) "type").bind JVal.as_str with
      | some text_type =>
        if text_type = "text" then
          (jGet (JVal.obj item) "text").bind JVal.as_str
        else
          match (jGet (JVal.obj item) "text").bind JVal.as_str with
          | some text => some text
          | none => some (jserializeMap item)
      | none =>
        match (jGet (JVal.obj item) "text").bind JVal.as_str with
        | some text => some text
        | none => some (jserializeMap item))
    strTrim (strJoin "\n" parts)
  | ToolResultContent.objContent obj =>
    match (jGet (JVal.obj obj) "type").bind JVal.as_str with
    | some text_type =>
      if text_type = "text" then
        match (jGet (JVal.obj obj) "text").bind JVal.as_str with
        | some text => text
        | none => jserializeMap obj
      else jserializeMap obj
    | none => jserializeMap obj

/-- has_tool_results (request_converter.rs lines 311-317). -/
def has_tool_results (msg : ClaudeMessage) : Bool :=
  match msg.content with
  | MessageContent.blocksMsg blocks =>
    blocks.any (fun block =>
      match block with
      | ClaudeContentBlock.toolResult _ => true
      | _ => false)
  | _ => false

/-- convert_claude_tool_results (request_converter.rs lines 290-308). -/
def convert_claude_tool_results (msg : ClaudeMessage) : List OpenAIMessage :=
  match msg.content with
  | MessageContent.blocksMsg blocks =>
    blocks.filterMap (fun block =>
      match block with
      | ClaudeContentBlock.toolResult tool_result =>
        some { role := "tool",
               content := some (JVal.str (parse_tool_result_content tool_result.content)),
               tool_calls := none,
               tool_call_id := some tool_result.tool_use_id }
      | _ => none)
  | _ => []

/-- convert_claude_user_message (request_converter.rs lines 163-232). -/
def convert_claude_user_message (msg : ClaudeMessage) : OpenAIMessage :=
  match msg.content with
  | MessageContent.strMsg s =>
    { role := "user", content := some (JVal.str s),
      tool_calls := none, tool_call_id := none }
  | MessageContent.blocksMsg blocks =>
    let openai_content : List JVal := blocks.filterMap (fun block =>
      match block with
      | ClaudeContentBlock.text text_block =>
        some (JVal.obj [("type", JVal.str "text"),
                        ("text", JVal.str text_block.text)])
      | ClaudeContentBlock.image image_block =>
        match (jGet (JVal.obj image_block.source) "type").bind JVal.as_str,
            (jGet (JVal.obj image_block.source) "media_type").bind JVal.as_str,
            (jGet (JVal.obj image_block.source) "data").bind JVal.as_str with
        | some source_type, some media_type, some data =>
          if source_type = "base64" then
            some (JVal.obj [("type", JVal.str "image_url"),
              ("image_url", JVal.obj [("url",
                JVal.str ("data:" ++ media_type ++ ";base64," ++ data))])])
          else none
        | _, _, _ => none
      | _ => none)
    match openai_content with
    | [only] =>
      match (jGet only "type").bind JVal.as_str with
      | some t =>
        if t = "text" then
          match jGet only "text" with
          | some text =>
            { role := "user", content := some text,
              tool_calls := none, tool_call_id := none }
          | none =>
            { role := "user", content := some (JVal.arr openai_content),
              tool_calls := none, tool_call_id := none }
        else
          { role := "user", content := some (JVal.arr openai_content),
            tool_calls := none, tool_call_id := none }
      | none =>
        { role := "user", content := some (JVal.arr openai_content),
          tool_calls := none, tool_call_id := none }
    | _ =>
      { role := "user", content := some (JVal.arr openai_content),
        tool_calls := none, tool_call_id := none }

/-- convert_claude_assistant_message (request_converter.rs lines
235-287). -/
def convert_claude_assistant_message (msg : ClaudeMessage) : OpenAIMessage :=
  match msg.content with
  | MessageContent.strMsg s =>
    { role := "assistant", content := some (JVal.str s),
      tool_calls := none, tool_call_id := none }
  | MessageContent.blocksMsg blocks =>
    let text_parts : List String := blocks.filterMap (fun block =>
      match block with
      | ClaudeContentBlock.text text_block => some text_block.text
      | _ => none)
    let tool_calls : List OpenAIToolCall := blocks.filterMap (fun block =>
      match block with
      | ClaudeContentBlock.toolUse tool_use =>
        some { id := tool_use.id, call_type := "function",
               function := { name := tool_use.name,
                             arguments := jserializeMap tool_use.input } }
      | _ => none)
    let content : Option JVal :=
      if text_parts.isEmpty then none
      else some (JVal.str (strJoin "" text_parts))
    let tool_calls_opt : Option (List OpenAIToolCall) :=
      if tool_calls.isEmpty then none else some tool_calls
    { role := "assistant", content := content,
      tool_calls := tool_calls_opt, tool_call_id := none }

/-- The message walk of convert_claude_to_openai (request_converter.rs
lines 68-92): the while loop with its assistant-plus-tool-results fold,
written as the equivalent recursion (the loop advances by two exactly
when the lookahead branch fires). -/
def convertMessageWalk : List ClaudeMessage → List OpenAIMessage
  | [] => []
  | msg :: rest =>
    if msg.role = "user" then
      convert_claude_user_message msg :: convertMessageWalk rest
    else if msg.role = "assistant" then
      let openai_message := convert_claude_assistant_message msg
      match rest with
      | next_msg :: rest2 =>
        if next_msg.role = "user" ∧ has_tool_results next_msg then
          openai_message ::
            (convert_claude_tool_results next_msg ++ convertMessageWalk rest2)
        else openai_message :: convertMessageWalk (next_msg :: rest2)
      | [] => [openai_message]
    else convertMessageWalk rest
termination_by msgs => msgs.length
decreasing_by
  all_goals simp
  omega

/-- The system-message materialisation of convert_claude_to_openai
(request_converter.rs lines 44-65). -/
def systemMessages (system : Option SystemContent) : List OpenAIMessage :=
  match system with
  | none => []
  | some sys =>
    let system_text :=
      match sys with
      | SystemContent.strSys s => s
      | SystemContent.blocksSys blocks =>
        strJoin "\n\n" ((blocks.filter
          (fun block => block.content_type = "text")).map
            (fun block => block.text))
    if strTrim system_text = "" then []
    else [{ role := "system", content := some (JVal.str (strTrim system_text)),
            tool_calls := none, tool_call_id := none }]

/-- The max_tokens clamp of convert_claude_to_openai
(request_converter.rs lines 95-98): claude.max_tokens.max(min).min(max). -/
def clampTokens (requested min_tokens max_tokens : Nat) : Nat :=
  Nat.min (Nat.max requested min_tokens) max_tokens

/-- The tools conversion (request_converter.rs lines 115-132). -/
def convertTools (tools : Option (List ClaudeTool)) : Option (List OpenAITool) :=
  match tools with
  | none => none
  | some claude_tools =>
    let openai_tools : List OpenAITool :=
      ((claude_tools.filter (fun t => ¬ (strTrim t.name = ""))).map
        (fun t => { tool_type := "function",
                    function := { name := t.name, description := t.description,
                                  parameters := t.input_schema } }))
    if openai_tools.isEmpty then none else some openai_tools

/-- The tool_choice conversion (request_converter.rs lines 135-156). -/
def convertToolChoice (tool_choice : Option (List (String × JVal))) : Option JVal :=
  match tool_choice with
  | none => none
  | some tc =>
    match (jGet (JVal.obj tc) "type").bind JVal.as_str with
    | none => none
    | some choice_type =>
      if choice_type = "auto" ∨ choice_type = "any" then
        some (JVal.str "auto")
      else if choice_type = "tool" then
        match (jGet (JVal.obj tc) "name").bind JVal.as_str with
        | some name =>
          some (JVal.obj [("type", JVal.str "function"),
                          ("function", JVal.obj [("name", JVal.str name)])])
        | none => some (JVal.str "auto")
      else some (JVal.str "auto")

/-- convert_claude_to_openai (request_converter.rs lines 31-160). -/
def convert_claude_to_openai (claude_request : ClaudeMessagesRequest)
    (config : ModelsConfig) (min_tokens max_tokens : Nat) :
    OpenAIChatCompletionRequest :=
  let openai_model := map_claude_model_to_openai config claude_request.model
  let openai_messages :=
    systemMessages claude_request.system ++
      convertMessageWalk claude_request.messages
  let clamped_max_tokens :=
    clampTokens claude_request.max_tokens min_tokens max_tokens
  { model := openai_model,
    messages := openai_messages,
    max_tokens := some clamped_max_tokens,
    temperature := some claude_request.temperature,
    top_p := claude_request.top_p,
    stop := claude_request.stop_sequences,
    stream := claude_request.stream,
    stream_options := none,
    tools := convertTools claude_request.tools,
    tool_choice := convertToolChoice claude_request.tool_choice }

/-! ## Non-streaming response converter (response_converter.rs lines
23-89) -/

/-- A content block of the built Claude response value. -/
inductive ClaudeRespBlock where
  | text (text : String)
  | toolUse (id : String) (name : String) (input : JVal)

/-- The Claude response value built by convert_openai_to_claude. -/
structure ClaudeResponse where
  id : String
  content : List ClaudeRespBlock
  model : String
  stop_reason : String
  input_tokens : Nat
  output_tokens : Nat

/-- convert_openai_to_claude (response_converter.rs lines 23-89). The
source reads &openai_response.choices[0] unconditionally, which panics
on an empty choices vector; the embedding makes the partiality explicit
by returning none exactly there. -/
def convert_openai_to_claude (openai_response : OpenAIChatCompletionResponse)
    (original_model : String) : Option ClaudeResponse :=
  match openai_response.choices with
  | [] => none
  | choice :: _ =>
    let message := choice.message
    let text_blocks : List ClaudeRespBlock :=
      match message.content with
      | some content =>
        match content.as_str with
        | some text => if text = "" then [] else [ClaudeRespBlock.text text]
        | none => []
      | none => []
    let tool_blocks : List ClaudeRespBlock :=
      match message.tool_calls with
      | some tool_calls =>
        tool_calls.map (fun tool_call =>
          let input : JVal :=
            match jparse tool_call.function.arguments with
            | some v => v
            | none => JVal.obj []
          ClaudeRespBlock.toolUse tool_call.id tool_call.function.name input)
      | none => []
    let content_blocks := text_blocks ++ tool_blocks
    let content_blocks :=
      if content_blocks.isEmpty then [ClaudeRespBlock.text ""] else content_blocks
    let stop_reason :=
      match choice.finish_reason with
      | some r =>
        if r = "stop" then "end_turn"
        else if r = "length" then "max_tokens"
        else if r = "tool_calls" then "tool_use"
        else "end_turn"
      | none => "end_turn"
    some { id := openai_response.id,
           content := content_blocks,
           model := original_model,
           stop_reason := stop_reason,
           input_tokens := openai_response.usage.prompt_tokens,
           output_tokens := openai_response.usage.completion_tokens }

/-! ## Token-count estimator (api/endpoints.rs lines 234-284) -/

/-- The system part of count_tokens' character total (String::len is
UTF-8 byte length). -/
def countSysChars : Option SystemContent → Nat
  | none => 0
  | some (SystemContent.strSys s) => strLen s
  | some (SystemContent.blocksSys blocks) =>
    (blocks.map (fun b => strLen b.text)).sum

/-- One message's part of count_tokens' character total: the string
content's length, or the sum over text blocks (image/tool blocks
contribute 0). -/
def countMsgChars (msg : ClaudeMessage) : Nat :=
  match msg.content with
  | MessageContent.strMsg s => strLen s
  | MessageContent.blocksMsg blocks =>
    (blocks.map (fun block =>
      match block with
      | ClaudeContentBlock.text text_block => strLen text_block.text
      | _ => 0)).sum

/-- The character total of count_tokens (endpoints.rs lines 246-274). -/
def countTokensChars (request : ClaudeTokenCountRequest) : Nat :=
  countSysChars request.system + (request.messages.map countMsgChars).sum

/-- count_tokens' estimate: max(1, total_chars / 4). -/
def count_tokens_estimate (request : ClaudeTokenCountRequest) : Nat :=
  Nat.max 1 (countTokensChars request / 4)

/-! ## Client API key validation (api/endpoints.rs lines 47-72,
core/config.rs lines 355-361)

Headers are modelled at the level the spec's interface describes them:
the decoded string value of x-api-key and of authorization, when
present. -/

/-- The configuration fields validate_api_key reads. -/
structure AuthConfig where
  anthropic_api_key : Option String

/-- Config::validate_client_api_key (config.rs lines 355-361). -/
def validate_client_api_key (config : AuthConfig)
    (client_api_key : String) : Bool :=
  match config.anthropic_api_key with
  | some expected_key => client_api_key = expected_key
  | none => true

/-- The request headers the validation reads. -/
structure RequestHeaders where
  x_api_key : Option String
  authorization : Option String

/-- The Bearer strip of the authorization header
(v.strip_prefix("Bearer ")). -/
def bearerValue (v : String) : Option String :=
  if listStartsWith v.data ("Bearer ").data then
    some (String.mk (v.data.drop 7))
  else none

/-- The header extraction of validate_api_key: x-api-key, or else the
authorization header's Bearer value. -/
def extractClientApiKey (headers : RequestHeaders) : Option String :=
  match headers.x_api_key with
  | some v => some v
  | none => headers.authorization.bind bearerValue

/-- validate_api_key (endpoints.rs lines 47-72): Ok () when accepted,
Err 401 when rejected. -/
def validate_api_key (headers : RequestHeaders) (config : AuthConfig) :
    Except Nat Unit :=
  let client_api_key := extractClientApiKey headers
  if config.anthropic_api_key.isNone then Except.ok ()
  else
    match client_api_key with
    | some key =>
      if validate_client_api_key config key then Except.ok ()
      else Except.error 401
    | none => Except.error 401

/-! ## Spec-side view of a streaming run

A second, clearly spec-derived model, used only to state claims that
compare the code against the spec's words: per backend tool-call index
it records when the spec's start condition (id and name both known, not
yet started) becomes true — the spec's §4.4 step 7 evaluates that
condition after the id and name updates of every tool_calls entry — and
the concatenation of every function.arguments fragment supplied for the
index. It replays the same line discipline as the main loop and makes
no claim of its own about the code. -/

/-- Spec-side record for one backend tool-call index. -/
structure SpecSlot where
  idKnown : Bool
  nameKnown : Bool
  rank : Option Nat
  fragments : String
deriving DecidableEq, Repr

/-- Spec-side run state. -/
structure SpecSt where
  counter : Nat
  slots : List (Nat × SpecSlot)
deriving Repr

/-- A fresh spec-side record. -/
def freshSpecSlot : SpecSlot :=
  { idKnown := false, nameKnown := false, rank := none, fragments := "" }

/-- Spec-side processing of one tool_calls entry: update id/name
knowledge, append any supplied arguments fragment, and assign the next
1-based rank the moment the start condition holds. -/
def specRankTc (st : SpecSt) (tc : JVal) : SpecSt :=
  let k := ((jGet tc "index").bind JVal.as_u64).getD 0
  let st :=
    if (lookupSlot st.slots k).isSome then st
    else { st with slots := st.slots ++ [(k, freshSpecSlot)] }
  match lookupSlot st.slots k with
  | none => st
  | some s0 =>
    let s1 :=
      match (jGet tc "id").bind JVal.as_str with
      | some _ => { s0 with idKnown := true }
      | none => s0
    let s2 :=
      match ((jGet tc "function").bind (fun f => jGet f "name")).bind JVal.as_str with
      | some _ => { s1 with nameKnown := true }
      | none => s1
    let s3 :=
      match ((jGet tc "function").bind (fun f => jGet f "arguments")).bind JVal.as_str with
      | some a => { s2 with fragments := s2.fragments ++ a }
      | none => s2
    if s3.idKnown = true ∧ s3.nameKnown = true ∧ s3.rank = none then
      { counter := st.counter + 1,
        slots := updateSlot st.slots k { s3 with rank := some (st.counter + 1) } }
    else { st with slots := updateSlot st.slots k s3 }

/-- Spec-side replay of the main loop's line discipline. -/
def specLoop (parse : String → Option JVal) :
    SpecSt → List (Except String String) → SpecSt
  | st, [] => st
  | st, Except.error _ :: _ => st
  | st, Except.ok line :: rest =>
    let trimmed := trimChars line.data
    match dataPayload trimmed with
    | none => specLoop parse st rest
    | some payload =>
      if isDoneSentinel payload then st
      else
        match parse (String.mk payload) with
        | none => specLoop parse st rest
        | some chunk =>
          match (jGet chunk "choices").bind JVal.as_array with
          | some (choice :: _) =>
            let delta := jGet choice "delta"
            let st1 :=
              match (delta.bind (fun d => jGet d "tool_calls")).bind JVal.as_array with
              | some tool_calls => tool_calls.foldl specRankTc st
              | none => st
            match (jGet choice "finish_reason").bind JVal.as_str with
            | some _ => st1
            | none => specLoop parse st1 rest
          | some [] => specLoop parse st rest
          | none => specLoop parse st rest

/-- The 1-based rank at which index k's start condition became true
during a run, per the spec's state machine. -/
def specStartRank (parse : String → Option JVal)
    (input : List (Except String String)) (k : Nat) : Option Nat :=
  (lookupSlot (specLoop parse { counter := 0, slots := [] } input).slots k).bind
    (fun s => s.rank)

/-- The concatenation of all function.arguments fragments supplied for
index k across the chunks the run consumed. -/
def suppliedArgsConcat (parse : String → Option JVal)
    (input : List (Except String String)) (k : Nat) : String :=
  ((lookupSlot (specLoop parse { counter := 0, slots := [] } input).slots k).map
    (fun s => s.fragments)).getD ""

/-! ## Observation helpers over frames and states

Projection functions used to state the claims: which frames a list
holds, at which indices, and which output indices a state's slots
occupy. -/

/-- The index of a tool content_block_start frame. -/
def toolStartIdx : Frame → Option Nat
  | Frame.content_block_start_tool i _ _ => some i
  | _ => none

/-- The index of an input_json_delta frame. -/
def jsonDeltaIdx : Frame → Option Nat
  | Frame.content_block_delta_json i _ => some i
  | _ => none

/-- The index of a content_block_stop frame. -/
def stopIdx : Frame → Option Nat
  | Frame.content_block_stop i => some i
  | _ => none

/-- The indices of the tool content_block_start frames, in order. -/
def toolStartIndexes (frames : List Frame) : List Nat :=
  frames.filterMap toolStartIdx

/-- The indices of the input_json_delta frames, in order. -/
def jsonDeltaIndexes (frames : List Frame) : List Nat :=
  frames.filterMap jsonDeltaIdx

/-- The indices of the content_block_stop frames, in order. -/
def stopIndexes (frames : List Frame) : List Nat :=
  frames.filterMap stopIdx

/-- Is this an error frame? -/
def isErrorFrame : Frame → Bool
  | Frame.errorEvt _ => true
  | _ => false

/-- How many error frames a list holds. -/
def countErrorFrames (frames : List Frame) : Nat :=
  (frames.filter isErrorFrame).length

/-- The frames the main loop may yield (everything except the prelude
and postlude shapes). -/
def isBodyFrame : Frame → Bool
  | Frame.content_block_delta_text _ _ => true
  | Frame.content_block_start_tool _ _ _ => true
  | Frame.content_block_delta_json _ _ => true
  | Frame.errorEvt _ => true
  | _ => false

/-- The output index a slot occupies when started. -/
def startedProj (s : ToolCallState) : Option Nat :=
  if s.started then s.claude_index else none

/-- The output index at which a slot's json delta was sent. -/
def jsonProj (s : ToolCallState) : Option Nat :=
  if s.json_sent then s.claude_index else none

/-- The output indices of the started slots, in map (insertion) order. -/
def startedIdxs (m : List (Nat × ToolCallState)) : List Nat :=
  m.filterMap (fun p => startedProj p.2)

/-- The output indices of the slots whose json delta was sent, in map
order. -/
def jsonSentIdxs (m : List (Nat × ToolCallState)) : List Nat :=
  m.filterMap (fun p => jsonProj p.2)

/-- How often an optional index accounts for i: 1 when it is some i. -/
def optCount (o : Option Nat) (i : Nat) : Nat :=
  if o = some i then 1 else 0

/-- The tool content_block_stop frames of the postlude, exactly as
postludeFrames emits them. -/
def postludeToolStops
    (valuesOrder : List (Nat × ToolCallState) → List ToolCallState)
    (st : StreamSt) : List Frame :=
  (valuesOrder st.current_tool_calls).filterMap (fun tool_data =>
    if tool_data.started then
      match tool_data.claude_index with
      | some idx => some (Frame.content_block_stop idx)
      | none => none
    else none)

/-- Per-slot well-formedness at a given counter value. -/
def SlotWf (counter : Nat) (s : ToolCallState) : Prop :=
  (s.started = true → s.id.isSome = true ∧ s.name.isSome = true ∧
    ∃ i, s.claude_index = some i ∧ 1 ≤ i ∧ i ≤ counter)
  ∧ (s.json_sent = true → s.started = true)
  ∧ (s.started = false → s.claude_index = none ∧ s.json_sent = false)

/-- Loop-state well-formedness: every slot is well formed, keys are
unique, and the started slots' output indices are exactly 1..counter,
each occupied once. -/
def StWf (st : StreamSt) : Prop :=
  (∀ p ∈ st.current_tool_calls, SlotWf st.tool_block_counter p.2)
  ∧ (st.current_tool_calls.map Prod.fst).Nodup
  ∧ ∀ i, (startedIdxs st.current_tool_calls).count i
      = if 1 ≤ i ∧ i ≤ st.tool_block_counter then 1 else 0

/-- Slot evolution along a run: the argument buffer only grows, started
and json_sent are never reset, an assigned output index never changes. -/
def SlotMono (s s' : ToolCallState) : Prop :=
  (∃ t, s'.args_buffer = s.args_buffer ++ t)
  ∧ (s.started = true → s'.started = true)
  ∧ (∀ i, s.claude_index = some i → s'.claude_index = some i)
  ∧ (s.json_sent = true → s'.json_sent = true)

/-- Map evolution along a run: every present slot stays present and
evolves monotonically. -/
def MapMono (m m' : List (Nat × ToolCallState)) : Prop :=
  ∀ k s, lookupSlot m k = some s →
    ∃ s', lookupSlot m' k = some s' ∧ SlotMono s s'

/-- What an emitted input_json_delta frame promises against a (later)
state: its payload parses, and the slot holding its index has started
and has an argument buffer extending the payload. -/
def JsonFrameOk (parse : String → Option JVal) (st : StreamSt) : Frame → Prop
  | Frame.content_block_delta_json i pj =>
    (parse pj).isSome = true ∧
      ∃ k s, lookupSlot st.current_tool_calls k = some s ∧
        s.claude_index = some i ∧ s.started = true ∧
        ∃ t, s.args_buffer = pj ++ t
  | _ => True

/-- Everything one loop segment guarantees between its entry state, its
exit state and the frames it yields. -/
def TransOk (parse : String → Option JVal) (st st' : StreamSt)
    (frames : List Frame) : Prop :=
  st.tool_block_counter ≤ st'.tool_block_counter
  ∧ toolStartIndexes frames = List.range' (st.tool_block_counter + 1)
      (st'.tool_block_counter - st.tool_block_counter)
  ∧ (∀ fr ∈ frames, isBodyFrame fr = true)
  ∧ (∀ i, (startedIdxs st'.current_tool_calls).count i
      = (toolStartIndexes frames).count i
        + (startedIdxs st.current_tool_calls).count i)
  ∧ (∀ i, (jsonSentIdxs st'.current_tool_calls).count i
      = (jsonDeltaIndexes frames).count i
        + (jsonSentIdxs st.current_tool_calls).count i)
  ∧ MapMono st.current_tool_calls st'.current_tool_calls
  ∧ (∀ fr ∈ frames, JsonFrameOk parse st' fr)
  ∧ (∀ i t, Frame.content_block_delta_text i t ∈ frames → i = textBlockIndex)
  ∧ (∀ msg, Frame.errorEvt msg ∈ frames → False)

/-! ## Enumeration orders and concrete runs used by witnesses and
counterexamples -/

/-- The values() enumeration that happens to follow insertion order. -/
def valuesInOrder : List (Nat × ToolCallState) → List ToolCallState :=
  fun m => m.map Prod.snd

/-- The values() enumeration that happens to follow the reverse of
insertion order. -/
def valuesReversed : List (Nat × ToolCallState) → List ToolCallState :=
  fun m => (m.map Prod.snd).reverse

/-- Two chunks for backend tool-call index 0: the slot starts and the
buffer first parses on the first chunk, and a second fragment arrives
after that. -/
def cexC2input : List (Except String String) :=
  [Except.ok ("data: \x7b\"choices\":[\x7b\"delta\":\x7b\"tool_calls\":[\x7b\"index\":0,\"id\":\"t\",\"function\":\x7b\"name\":\"f\",\"arguments\":\"\x7b\x7d\"\x7d\x7d]\x7d\x7d]\x7d"),
   Except.ok ("data: \x7b\"choices\":[\x7b\"delta\":\x7b\"tool_calls\":[\x7b\"index\":0,\"function\":\x7b\"arguments\":\"\x7b\x7d\"\x7d\x7d]\x7d\x7d]\x7d")]

/-- One chunk starting two tool slots (backend indices 0 then 1). -/
def cexC3input : List (Except String String) :=
  [Except.ok ("data: \x7b\"choices\":[\x7b\"delta\":\x7b\"tool_calls\":[\x7b\"index\":0,\"id\":\"a\",\"function\":\x7b\"name\":\"f\"\x7d\x7d,\x7b\"index\":1,\"id\":\"b\",\"function\":\x7b\"name\":\"g\"\x7d\x7d]\x7d\x7d]\x7d")]

/-- A run in which slot 0's start condition becomes true first (on a
tool_calls entry without a function object) but slot 1 emits its
content_block_start first. -/
def cexC4input : List (Except String String) :=
  [Except.ok ("data: \x7b\"choices\":[\x7b\"delta\":\x7b\"tool_calls\":[\x7b\"index\":0,\"function\":\x7b\"name\":\"f\"\x7d\x7d]\x7d\x7d]\x7d"),
   Except.ok ("data: \x7b\"choices\":[\x7b\"delta\":\x7b\"tool_calls\":[\x7b\"index\":0,\"id\":\"a\"\x7d]\x7d\x7d]\x7d"),
   Except.ok ("data: \x7b\"choices\":[\x7b\"delta\":\x7b\"tool_calls\":[\x7b\"index\":1,\"id\":\"b\",\"function\":\x7b\"name\":\"g\"\x7d\x7d]\x7d\x7d]\x7d"),
   Except.ok ("data: \x7b\"choices\":[\x7b\"delta\":\x7b\"tool_calls\":[\x7b\"index\":0,\"function\":\x7b\x7d\x7d]\x7d\x7d]\x7d")]

/-- A run with text, a started tool slot, blank and non-data lines, an
unparseable payload and a failure item. -/
def witnessC1input : List (Except String String) :=
  [Except.ok (""),
   Except.ok (": keep-alive"),
   Except.ok ("data: not json"),
   Except.ok ("data: \x7b\"choices\":[\x7b\"delta\":\x7b\"content\":\"Hi\"\x7d\x7d]\x7d"),
   Except.ok ("data: \x7b\"choices\":[\x7b\"delta\":\x7b\"tool_calls\":[\x7b\"index\":0,\"id\":\"t1\",\"function\":\x7b\"name\":\"f\",\"arguments\":\"\x7b\x7d\"\x7d\x7d]\x7d\x7d]\x7d"),
   Except.error ("boom"),
   Except.ok ("data: [DONE]")]

/-- The spec's S4 text-only stream, ending in a finish_reason. -/
def witnessS4input : List (Except String String) :=
  [Except.ok ("data: \x7b\"choices\":[\x7b\"delta\":\x7b\"content\":\"He\"\x7d\x7d]\x7d"),
   Except.ok ("data: \x7b\"choices\":[\x7b\"delta\":\x7b\"content\":\"llo\"\x7d\x7d]\x7d"),
   Except.ok ("data: \x7b\"choices\":[\x7b\"delta\":\x7b\x7d,\"finish_reason\":\"stop\"\x7d]\x7d"),
   Except.ok ("data: [DONE]")]

/-! ## The claims' statements, as frozen

Each ClaimCnAsStated packages the claim's own wording over the
embedding; a corrected claim's counterexample theorem refutes it. -/

/-- C2 as stated: per backend index k, at most one start and one json
delta, and the delta's partial_json parses to the same JSON value as
the concatenation of every fragment supplied for k. -/
def ClaimC2AsStated : Prop :=
  ∀ (parse : String → Option JVal) (input : List (Except String String)) (k : Nat)
    (s : ToolCallState),
    lookupSlot (runLoop parse initStreamSt input).1.current_tool_calls k = some s →
    ∀ i, s.claude_index = some i →
      (toolStartIndexes (runLoop parse initStreamSt input).2.1).count i ≤ 1
      ∧ (jsonDeltaIndexes (runLoop parse initStreamSt input).2.1).count i ≤ 1
      ∧ ∀ pj, Frame.content_block_delta_json i pj ∈ (runLoop parse initStreamSt input).2.1 →
          parse pj = parse (suppliedArgsConcat parse input k)

/-- C3 as stated: whenever a run started two or more tool slots, the
postlude's tool content_block_stop frames follow slot insertion order. -/
def ClaimC3AsStated : Prop :=
  ∀ (parse : String → Option JVal)
    (valuesOrder : List (Nat × ToolCallState) → List ToolCallState)
    (input : List (Except String String)),
    ValidValuesOrder valuesOrder →
    2 ≤ (startedIdxs (runLoop parse initStreamSt input).1.current_tool_calls).length →
    postludeToolStops valuesOrder (runLoop parse initStreamSt input).1
      = (startedIdxs (runLoop parse initStreamSt input).1.current_tool_calls).map
          Frame.content_block_stop

/-- C4 as stated: the slot invariants, text at index 0, uniqueness, and
each started slot's output index equal to the 1-based rank at which its
start condition became true. -/
def ClaimC4AsStated : Prop :=
  ∀ (parse : String → Option JVal) (input : List (Except String String)),
    (∀ k s, lookupSlot (runLoop parse initStreamSt input).1.current_tool_calls k = some s →
      (s.started = true → s.id.isSome = true ∧ s.name.isSome = true ∧
        ∃ i, s.claude_index = some i ∧ 1 ≤ i)
      ∧ (s.json_sent = true → s.started = true))
    ∧ (∀ i t, Frame.content_block_delta_text i t ∈ (runLoop parse initStreamSt input).2.1 → i = 0)
    ∧ (∀ k1 s1 k2 s2,
        lookupSlot (runLoop parse initStreamSt input).1.current_tool_calls k1 = some s1 →
        lookupSlot (runLoop parse initStreamSt input).1.current_tool_calls k2 = some s2 →
        s1.started = true → s2.started = true →
        s1.claude_index = s2.claude_index → k1 = k2)
    ∧ (∀ k s, lookupSlot (runLoop parse initStreamSt input).1.current_tool_calls k = some s →
        s.started = true → s.claude_index = specStartRank parse input k)

/-- The character total the C8 claim describes: the number of characters
(unicode scalar values) rather than the byte length the code sums. -/
def countTokensScalars (request : ClaudeTokenCountRequest) : Nat :=
  let sys_chars :=
    match request.system with
    | none => 0
    | some (SystemContent.strSys s) => s.length
    | some (SystemContent.blocksSys blocks) =>
      (blocks.map (fun b => b.text.length)).sum
  let msg_chars :=
    (request.messages.map (fun msg =>
      match msg.content with
      | MessageContent.strMsg s => s.length
      | MessageContent.blocksMsg blocks =>
        (blocks.map (fun block =>
          match block with
          | ClaudeContentBlock.text text_block => text_block.text.length
          | _ => 0)).sum)).sum
  sys_chars + msg_chars

/-- C8 as stated: input_tokens = max(1, c / 4) with c the character
count. -/
def ClaimC8AsStated : Prop :=
  ∀ request : ClaudeTokenCountRequest,
    (∀ m ∈ request.messages, m.role = "user" ∨ m.role = "assistant") →
    count_tokens_estimate request = Nat.max 1 (countTokensScalars request / 4)

/-- A token-count request whose system text is eight two-byte
characters. -/
def cexC8request : ClaudeTokenCountRequest :=
  { model := "claude-3-5-sonnet",
    messages := [],
    system := some (SystemContent.strSys ("éééééééé")) }

/-- The system text pieces of a token-count request. -/
def sysTextPieces : Option SystemContent → List String
  | none => []
  | some (SystemContent.strSys s) => [s]
  | some (SystemContent.blocksSys blocks) => blocks.map (fun b => b.text)

/-- One message's text pieces. -/
def msgTextPieces (msg : ClaudeMessage) : List String :=
  match msg.content with
  | MessageContent.strMsg s => [s]
  | MessageContent.blocksMsg blocks =>
    blocks.filterMap (fun block =>
      match block with
      | ClaudeContentBlock.text text_block => some text_block.text
      | _ => none)

/-- Every text piece count_tokens sums over, flattened into one list:
the system text (or texts, in block form) followed by each message's
text (string form) or text blocks. -/
def requestTextPieces (request : ClaudeTokenCountRequest) : List String :=
  sysTextPieces request.system ++ request.messages.flatMap msgTextPieces

/-- The tool_use_ids of a message's tool_result blocks, in order. -/
def toolResultIds (msg : ClaudeMessage) : List String :=
  match msg.content with
  | MessageContent.blocksMsg blocks =>
    blocks.filterMap (fun block =>
      match block with
      | ClaudeContentBlock.toolResult tool_result => some tool_result.tool_use_id
      | _ => none)
  | _ => []

/-- The spec's scenario S3, first message. -/
def s3userMsg : ClaudeMessage :=
  { role := "user", content := MessageContent.strMsg "q" }

/-- The spec's scenario S3, assistant message with one tool_use. -/
def s3assistantMsg : ClaudeMessage :=
  { role := "assistant",
    content := MessageContent.blocksMsg
      [ClaudeContentBlock.toolUse
        { content_type := "tool_use", id := "t1", name := "f",
          input := [("x", JVal.num 1)] }] }

/-- The spec's scenario S3, user message carrying one tool_result. -/
def s3toolResultMsg : ClaudeMessage :=
  { role := "user",
    content := MessageContent.blocksMsg
      [ClaudeContentBlock.toolResult
        { content_type := "tool_result", tool_use_id := "t1",
          content := ToolResultContent.strContent "42" }] }

/-- The spec's scenario S3 request. -/
def s3request : ClaudeMessagesRequest :=
  { model := "claude-3-5-sonnet", max_tokens := 100,
    messages := [s3userMsg, s3assistantMsg, s3toolResultMsg],
    system := none, stop_sequences := none, stream := false,
    temperature := { bits := 0 }, top_p := none, top_k := none,
    tools := none, tool_choice := none }

/-- The loop-level transition bundle: like TransOk, but the frames may
include the one error frame the loop emits on a failure item. -/
def TransOkL (parse : String → Option JVal) (st st' : StreamSt)
    (frames : List Frame) : Prop :=
  st.tool_block_counter ≤ st'.tool_block_counter
  ∧ toolStartIndexes frames = List.range' (st.tool_block_counter + 1)
      (st'.tool_block_counter - st.tool_block_counter)
  ∧ (∀ fr ∈ frames, isBodyFrame fr = true)
  ∧ (∀ i, (startedIdxs st'.current_tool_calls).count i
      = (toolStartIndexes frames).count i
        + (startedIdxs st.current_tool_calls).count i)
  ∧ (∀ i, (jsonSentIdxs st'.current_tool_calls).count i
      = (jsonDeltaIndexes frames).count i
        + (jsonSentIdxs st.current_tool_calls).count i)
  ∧ MapMono st.current_tool_calls st'.current_tool_calls
  ∧ (∀ fr ∈ frames, JsonFrameOk parse st' fr)
  ∧ (∀ i t, Frame.content_block_delta_text i t ∈ frames → i = textBlockIndex)

/-- The final slot of backend index 0 in the cexC2input run. -/
def cexC2slot : ToolCallState :=
  { id := some "t", name := some "f", args_buffer := "\x7b\x7d\x7b\x7d",
    json_sent := true, claude_index := some 1, started := true }

/-- C1's property: the output decomposes into the three prelude frames,
a body of body frames, a content_block_stop(0), the tool stop frames,
and message_delta followed by message_stop; between prelude and closing
pair there is exactly one content_block_stop(0) and exactly one
content_block_stop per started (uniquely indexed) tool slot; and the
body holds exactly one error frame when the loop exited on a failure
item and none otherwise. -/
def StreamEnvelope (parse : String → Option JVal)
    (valuesOrder : List (Nat × ToolCallState) → List ToolCallState)
    (message_id original_model : String)
    (input : List (Except String String)) : Prop :=
  ∃ body stops reason usage,
    convert_openai_streaming_to_claude parse valuesOrder message_id
        original_model input
      = [Frame.message_start message_id original_model,
         Frame.content_block_start_text, Frame.ping]
        ++ (body ++ Frame.content_block_stop textBlockIndex :: stops)
        ++ [Frame.message_delta reason usage, Frame.message_stop]
    ∧ (∀ f ∈ body, isBodyFrame f = true)
    ∧ (∀ i, (stopIndexes
          (body ++ Frame.content_block_stop textBlockIndex :: stops)).count i
        = (if i = textBlockIndex then 1 else 0)
          + (startedIdxs
              (runLoop parse initStreamSt input).1.current_tool_calls).count i)
    ∧ (∀ i, (startedIdxs
          (runLoop parse initStreamSt input).1.current_tool_calls).count i ≤ 1)
    ∧ countErrorFrames body
        = (if (runLoop parse initStreamSt input).2.2 = ExitKind.errExit
           then 1 else 0)
    ∧ (∀ msg, Frame.errorEvt msg ∈ stops → False)

/-- C4's property: slot invariants at the end of the run (which, input
being universally quantified, is every point of every run), text deltas
only at index 0, started output indices unique, and the n-th emitted
content_block_start carrying output index n. -/
def C4Invariants (parse : String → Option JVal)
    (input : List (Except String String)) : Prop :=
  (∀ k s, lookupSlot (runLoop parse initStreamSt input).1.current_tool_calls k
      = some s →
    (s.started = true → s.id.isSome = true ∧ s.name.isSome = true ∧
      ∃ i, s.claude_index = some i ∧ 1 ≤ i ∧
        i ≤ (runLoop parse initStreamSt input).1.tool_block_counter)
    ∧ (s.json_sent = true → s.started = true)
    ∧ (s.started = false → s.claude_index = none ∧ s.json_sent = false))
  ∧ (∀ i t, Frame.content_block_delta_text i t
      ∈ (runLoop parse initStreamSt input).2.1 → i = textBlockIndex)
  ∧ (∀ k1 s1 k2 s2,
      lookupSlot (runLoop parse initStreamSt input).1.current_tool_calls k1
        = some s1 →
      lookupSlot (runLoop parse initStreamSt input).1.current_tool_calls k2
        = some s2 →
      s1.started = true → s2.started = true →
      s1.claude_index = s2.claude_index → k1 = k2)
  ∧ toolStartIndexes (runLoop parse initStreamSt input).2.1
      = List.range' 1 (runLoop parse initStreamSt input).1.tool_block_counter

/-! # Theorems -/

/-- lookupSlot finds only stored entries. -/
theorem lookupSlot_mem {α : Type} {m : List (Nat × α)} {k : Nat} {s : α}
    (h : lookupSlot m k = some s) : (k, s) ∈ m := by
  induction m with
  | nil => simp [lookupSlot] at h
  | cons p rest ih =>
    obtain ⟨k0, v0⟩ := p
    by_cases hk : k0 = k
    · subst hk
      simp [lookupSlot] at h
      simp [h]
    · simp [lookupSlot, hk] at h
      exact List.mem_cons_of_mem _ (ih h)

/-- listStartsWith is the prefix relation. -/
theorem listStartsWith_iff {a p : List Char} :
    listStartsWith a p = true ↔ ∃ r, a = p ++ r := by
  induction p generalizing a with
  | nil => simp [listStartsWith]
  | cons b bs ih =>
    cases a with
    | nil =>
      simp [listStartsWith]
    | cons c cs =>
      simp only [listStartsWith, Bool.and_eq_true, decide_eq_true_eq, ih,
        List.cons_append, List.cons.injEq]
      constructor
      · rintro ⟨hc, r, hr⟩
        exact ⟨r, hc, hr⟩
      · rintro ⟨r, hc, hr⟩
        exact ⟨hc, r, hr⟩

/-- C6: the outgoing request's max_tokens is exactly
min(max(requested, min_tokens), max_tokens); below the lower limit it is
exactly min_tokens, above the upper limit exactly max_tokens. -/
theorem C6_token_clamp (claude_request : ClaudeMessagesRequest)
    (config : ModelsConfig) (min_tokens max_tokens : Nat) :
    (convert_claude_to_openai claude_request config min_tokens max_tokens).max_tokens
      = some (Nat.min (Nat.max claude_request.max_tokens min_tokens) max_tokens)
    ∧ (min_tokens ≤ max_tokens → claude_request.max_tokens < min_tokens →
        (convert_claude_to_openai claude_request config min_tokens max_tokens).max_tokens
          = some min_tokens)
    ∧ (min_tokens ≤ max_tokens → max_tokens < claude_request.max_tokens →
        (convert_claude_to_openai claude_request config min_tokens max_tokens).max_tokens
          = some max_tokens) := by
  refine ⟨rfl, fun hle hlow => ?_, fun hle hhigh => ?_⟩ <;>
    simp only [convert_claude_to_openai, clampTokens, Option.some.injEq,
      Nat.min_def, Nat.max_def] <;>
    split_ifs <;> omega

/-- C6 witness: with limits (100, 500), a request for 10 tokens is sent
with 100 and a request for 9999 with 500. -/
theorem C6_token_clamp_witness :
    (100 ≤ 500 ∧ 10 < 100 ∧ 500 < 9999)
    ∧ (convert_claude_to_openai
        { model := "claude-3-5-sonnet", max_tokens := 10, messages := [],
          system := none, stop_sequences := none, stream := false,
          temperature := { bits := 0 }, top_p := none, top_k := none,
          tools := none, tool_choice := none }
        { big_model := "gpt-4o", middle_model := "gpt-4o",
          small_model := "gpt-4o-mini" } 100 500).max_tokens = some 100
    ∧ (convert_claude_to_openai
        { model := "claude-3-5-sonnet", max_tokens := 9999, messages := [],
          system := none, stop_sequences := none, stream := false,
          temperature := { bits := 0 }, top_p := none, top_k := none,
          tools := none, tool_choice := none }
        { big_model := "gpt-4o", middle_model := "gpt-4o",
          small_model := "gpt-4o-mini" } 100 500).max_tokens = some 500 :=
  ⟨by omega,
   (C6_token_clamp _ _ 100 500).2.1 (by omega) (by decide),
   (C6_token_clamp _ _ 100 500).2.2 (by omega) (by decide)⟩

/-- C7: a model name with one of the five case-sensitive passthrough
prefixes is returned unchanged; otherwise the lowercased name selects
small_model on haiku, else middle_model on sonnet, else big_model on
opus, else big_model. -/
theorem C7_model_mapper (config : ModelsConfig) (name : String) :
    ((listStartsWith name.data ("gpt-").data = true
      ∨ listStartsWith name.data ("o1-").data = true
      ∨ listStartsWith name.data ("ep-").data = true
      ∨ listStartsWith name.data ("doubao-").data = true
      ∨ listStartsWith name.data ("deepseek-").data = true) →
      map_claude_model_to_openai config name = name)
    ∧ (listStartsWith name.data ("gpt-").data = false →
       listStartsWith name.data ("o1-").data = false →
       listStartsWith name.data ("ep-").data = false →
       listStartsWith name.data ("doubao-").data = false →
       listStartsWith name.data ("deepseek-").data = false →
        (strContainsSub (strToLower name) ("haiku") = true →
          map_claude_model_to_openai config name = config.small_model)
        ∧ (strContainsSub (strToLower name) ("haiku") = false →
           strContainsSub (strToLower name) ("sonnet") = true →
          map_claude_model_to_openai config name = config.middle_model)
        ∧ (strContainsSub (strToLower name) ("haiku") = false →
           strContainsSub (strToLower name) ("sonnet") = false →
           strContainsSub (strToLower name) ("opus") = true →
          map_claude_model_to_openai config name = config.big_model)
        ∧ (strContainsSub (strToLower name) ("haiku") = false →
           strContainsSub (strToLower name) ("sonnet") = false →
           strContainsSub (strToLower name) ("opus") = false →
          map_claude_model_to_openai config name = config.big_model)) := by
  constructor
  · rintro (h | h | h | h | h) <;> simp [map_claude_model_to_openai, h]
  · intro h1 h2 h3 h4 h5
    refine ⟨?_, ?_, ?_, ?_⟩
    · intro hh
      simp [map_claude_model_to_openai, h1, h2, h3, h4, h5, hh]
    · intro hh hs
      simp [map_claude_model_to_openai, h1, h2, h3, h4, h5, hh, hs]
    · intro hh hs ho
      simp [map_claude_model_to_openai, h1, h2, h3, h4, h5, hh, hs, ho]
    · intro hh hs ho
      simp [map_claude_model_to_openai, h1, h2, h3, h4, h5, hh, hs, ho]

/-- C7 witness: a sonnet name without passthrough prefix maps to the
configured middle model. -/
theorem C7_model_mapper_witness :
    map_claude_model_to_openai
      { big_model := "big", middle_model := "mid", small_model := "small" }
      "claude-3-5-sonnet-20241022" = "mid" :=
  ((C7_model_mapper
      { big_model := "big", middle_model := "mid", small_model := "small" }
      "claude-3-5-sonnet-20241022").2
    (by decide) (by decide) (by decide) (by decide) (by decide)).2.1
    (by decide) (by decide)

/-- C9: the non-streaming converter is undefined (the source indexes
choices[0], a panic) exactly on an empty choices array: a non-empty
choices array is necessary and sufficient for a Claude response value
to be produced. -/
theorem C9_choices_nonempty_precondition
    (openai_response : OpenAIChatCompletionResponse) (original_model : String) :
    convert_openai_to_claude openai_response original_model = none
      ↔ openai_response.choices = [] := by
  cases h : openai_response.choices with
  | nil => simp [convert_openai_to_claude, h]
  | cons c rest => simp [convert_openai_to_claude, h]

/-- Rebuilding a string from its characters is the identity. -/
theorem strMk_data (s : String) : String.mk s.data = s := by
  cases s
  rfl

/-- The Bearer strip succeeds exactly on "Bearer " followed by the
value. -/
theorem bearerValue_eq_some {v t : String} :
    bearerValue v = some t ↔ v = "Bearer " ++ t := by
  constructor
  · intro hb
    by_cases hpre : listStartsWith v.data ("Bearer ").data = true
    · have hr := listStartsWith_iff.mp hpre
      obtain ⟨r, hr⟩ := hr
      simp only [bearerValue, hpre, if_true, Option.some.injEq] at hb
      have hdrop : v.data.drop 7 = r := by
        rw [hr]
        rfl
      have hv : v = String.mk (("Bearer ").data ++ r) := by
        rw [← hr, strMk_data]
      rw [hv, ← hb, hdrop]
      rfl
    · simp [bearerValue, hpre] at hb
  · intro hv
    subst hv
    have hdata : ("Bearer " ++ t).data = ("Bearer ").data ++ t.data := by
      cases t
      rfl
    have hpre : listStartsWith ("Bearer " ++ t).data ("Bearer ").data = true :=
      listStartsWith_iff.mpr ⟨t.data, hdata⟩
    simp only [bearerValue, hpre, if_true, Option.some.injEq]
    rw [hdata]
    have : (("Bearer ").data ++ t.data).drop 7 = t.data := rfl
    rw [this, strMk_data]

/-- C10: with a configured expected key, a present x-api-key header is
the only value compared (the outcome is the same whatever the
authorization header holds, and a wrong x-api-key is rejected with 401
even next to a correct Bearer value); the authorization Bearer value
decides only when x-api-key is absent. -/
theorem C10_x_api_key_precedence (headers : RequestHeaders)
    (config : AuthConfig) (expected : String)
    (hconf : config.anthropic_api_key = some expected) :
    (∀ k, headers.x_api_key = some k →
      validate_api_key headers config
        = validate_api_key { x_api_key := some k, authorization := none } config
      ∧ (k ≠ expected → validate_api_key headers config = Except.error 401))
    ∧ (headers.x_api_key = none →
        (validate_api_key headers config = Except.ok ()
          ↔ headers.authorization = some ("Bearer " ++ expected))) := by
  constructor
  · intro k hx
    constructor
    · simp [validate_api_key, extractClientApiKey, hx, hconf]
    · intro hne
      simp [validate_api_key, extractClientApiKey, hx, hconf,
        validate_client_api_key, hne]
  · intro hx
    cases ha : headers.authorization with
    | none =>
      simp [validate_api_key, extractClientApiKey, hx, ha, hconf]
    | some v =>
      simp only [validate_api_key, extractClientApiKey, hx, ha, hconf,
        Option.isNone_some, Bool.false_eq_true, if_false, Option.some.injEq,
        Option.some_bind]
      constructor
      · intro hok
        cases hb : bearerValue v with
        | none => simp [hb] at hok
        | some t =>
          simp only [hb] at hok
          have ht : t = expected := by
            by_cases he : t = expected
            · exact he
            · simp [validate_client_api_key, hconf, he] at hok
          subst ht
          exact bearerValue_eq_some.mp hb
      · intro hv
        subst hv
        have hb : bearerValue ("Bearer " ++ expected) = some expected :=
          bearerValue_eq_some.mpr rfl
        simp [hb, validate_client_api_key, hconf]

/-- C10 witness: with expected key "sek", a wrong x-api-key next to a
correct Bearer header is rejected with 401, and the same Bearer header
alone is accepted. -/
theorem C10_x_api_key_precedence_witness :
    validate_api_key
      { x_api_key := some "wrong", authorization := some ("Bearer sek") }
      { anthropic_api_key := some "sek" } = Except.error 401
    ∧ validate_api_key
      { x_api_key := none, authorization := some ("Bearer sek") }
      { anthropic_api_key := some "sek" } = Except.ok () :=
  ⟨((C10_x_api_key_precedence
      { x_api_key := some "wrong", authorization := some ("Bearer sek") }
      { anthropic_api_key := some "sek" } "sek" rfl).1 "wrong" rfl).2
      (by decide),
   ((C10_x_api_key_precedence
      { x_api_key := none, authorization := some ("Bearer sek") }
      { anthropic_api_key := some "sek" } "sek" rfl).2 rfl).mpr rfl⟩

/-- List of text pieces: summing a byte length over message blocks is
summing over the text blocks kept by filterMap. -/
theorem sum_blockLens (blocks : List ClaudeContentBlock) :
    (blocks.map (fun block =>
      match block with
      | ClaudeContentBlock.text text_block => strLen text_block.text
      | _ => 0)).sum
      = ((blocks.filterMap (fun block =>
          match block with
          | ClaudeContentBlock.text text_block => some text_block.text
          | _ => none)).map strLen).sum := by
  induction blocks with
  | nil => rfl
  | cons b rest ih =>
    cases b <;> simp [List.filterMap_cons, ih]

/-- The system character count is the summed byte length of the system
text pieces. -/
theorem countSysChars_eq (system : Option SystemContent) :
    countSysChars system = ((sysTextPieces system).map strLen).sum := by
  match system with
  | none => rfl
  | some (SystemContent.strSys s) => simp [countSysChars, sysTextPieces]
  | some (SystemContent.blocksSys blocks) =>
    simp [countSysChars, sysTextPieces, List.map_map, Function.comp_def]

/-- One message's character count is the summed byte length of its text
pieces. -/
theorem countMsgChars_eq (msg : ClaudeMessage) :
    countMsgChars msg = ((msgTextPieces msg).map strLen).sum := by
  match h : msg.content with
  | MessageContent.strMsg s => simp [countMsgChars, msgTextPieces, h]
  | MessageContent.blocksMsg blocks =>
    simp only [countMsgChars, msgTextPieces, h]
    exact sum_blockLens blocks

/-- C8 amended form, whole-request: the code's nested sum equals the sum
of byte lengths over the flattened text pieces. -/
theorem countTokensChars_eq_pieces (request : ClaudeTokenCountRequest) :
    countTokensChars request = ((requestTextPieces request).map strLen).sum := by
  unfold countTokensChars requestTextPieces
  rw [List.map_append, List.sum_append, countSysChars_eq]
  congr 1
  induction request.messages with
  | nil => rfl
  | cons msg rest ih =>
    rw [List.map_cons, List.sum_cons, List.flatMap_cons, List.map_append,
      List.sum_append, ih, countMsgChars_eq]

/-- C8 counterexample: on a request whose system text has eight
characters of two UTF-8 bytes each, the endpoint returns
max(1, 16 / 4) = 4, not the claimed max(1, 8 / 4) = 2. -/
theorem C8_counterexample : ¬ ClaimC8AsStated := by
  intro h
  have h2 := h cexC8request (by intro m hm; simp [cexC8request] at hm)
  have hl : count_tokens_estimate cexC8request = 4 := rfl
  have hr : Nat.max 1 (countTokensScalars cexC8request / 4) = 2 := rfl
  rw [hl, hr] at h2
  exact absurd h2 (by decide)

/-- C8 (amended): input_tokens equals max(1, c / 4) where c is the total
UTF-8 byte length (Rust String::len) of the system text and of every
text content block of the request's user/assistant messages; image and
tool blocks contribute 0. -/
theorem C8_token_estimate (request : ClaudeTokenCountRequest)
    (hroles : ∀ m ∈ request.messages, m.role = "user" ∨ m.role = "assistant") :
    count_tokens_estimate request
      = Nat.max 1 (((requestTextPieces request).map strLen).sum / 4) := by
  unfold count_tokens_estimate
  rw [countTokensChars_eq_pieces]

/-- C8 witness: a request with 9 ASCII bytes of text yields
max(1, 9 / 4) = 2 tokens. -/
theorem C8_token_estimate_witness :
    count_tokens_estimate
      { model := "m",
        messages := [{ role := "user", content := MessageContent.strMsg "untokened" }],
        system := none }
      = Nat.max 1 ((([("untokened" : String)]).map strLen).sum / 4) :=
  C8_token_estimate
    { model := "m",
      messages := [{ role := "user", content := MessageContent.strMsg "untokened" }],
      system := none }
    (by intro m hm; simp at hm; subst hm; exact Or.inl rfl)

end CCProxy

namespace CCProxy

/-- Walk equation: empty list. -/
theorem walk_nil : convertMessageWalk [] = [] := by
  rw [convertMessageWalk]

/-- Walk equation: a user message converts and the walk continues. -/
theorem walk_cons_user {msg : ClaudeMessage} (rest : List ClaudeMessage)
    (h : msg.role = "user") :
    convertMessageWalk (msg :: rest)
      = convert_claude_user_message msg :: convertMessageWalk rest := by
  rw [convertMessageWalk]
  simp [h]

/-- Walk equation: a message that is neither user nor assistant is
dropped. -/
theorem walk_cons_other {msg : ClaudeMessage} (rest : List ClaudeMessage)
    (h1 : ¬ msg.role = "user") (h2 : ¬ msg.role = "assistant") :
    convertMessageWalk (msg :: rest) = convertMessageWalk rest := by
  rw [convertMessageWalk]
  simp [h1, h2]

/-- Walk equation: a final assistant message. -/
theorem walk_assistant_nil {msg : ClaudeMessage} (h : msg.role = "assistant") :
    convertMessageWalk [msg] = [convert_claude_assistant_message msg] := by
  rw [convertMessageWalk]
  simp [h]

/-- Walk equation: an assistant message whose successor is a user
message with tool results folds it. -/
theorem walk_assistant_fold {msg next : ClaudeMessage}
    (rest2 : List ClaudeMessage) (h : msg.role = "assistant")
    (hf : next.role = "user" ∧ has_tool_results next = true) :
    convertMessageWalk (msg :: next :: rest2)
      = convert_claude_assistant_message msg ::
          (convert_claude_tool_results next ++ convertMessageWalk rest2) := by
  rw [convertMessageWalk]
  have hne : ¬ msg.role = "user" := by rw [h]; decide
  simp [h, hne, hf]

/-- Walk equation: an assistant message without a folding successor. -/
theorem walk_assistant_nofold {msg next : ClaudeMessage}
    (rest2 : List ClaudeMessage) (h : msg.role = "assistant")
    (hnf : ¬ (next.role = "user" ∧ has_tool_results next = true)) :
    convertMessageWalk (msg :: next :: rest2)
      = convert_claude_assistant_message msg ::
          convertMessageWalk (next :: rest2) := by
  rw [convertMessageWalk]
  have hne : ¬ msg.role = "user" := by rw [h]; decide
  simp [h, hne, hnf]

/-- The message walk distributes over an append whose right part begins
with an assistant message: the lookahead at the boundary never folds an
assistant message, so the left part converts independently. -/
theorem convertMessageWalk_append (a : ClaudeMessage)
    (ha : a.role = "assistant") :
    ∀ (n : Nat) (pre t : List ClaudeMessage), pre.length ≤ n →
      convertMessageWalk (pre ++ a :: t)
        = convertMessageWalk pre ++ convertMessageWalk (a :: t) := by
  intro n
  induction n with
  | zero =>
    intro pre t hlen
    have : pre = [] := List.eq_nil_of_length_eq_zero (Nat.le_zero.mp hlen)
    subst this
    simp [walk_nil]
  | succ n ih =>
    intro pre t hlen
    match pre with
    | [] => simp [walk_nil]
    | msg :: pre2 =>
      by_cases hu : msg.role = "user"
      · rw [List.cons_append, walk_cons_user _ hu, walk_cons_user _ hu,
          ih pre2 t (by simpa using Nat.le_of_succ_le_succ hlen)]
        simp
      · by_cases hassist : msg.role = "assistant"
        · match pre2 with
          | [] =>
            have hnofold : ¬ (a.role = "user" ∧ has_tool_results a = true) := by
              intro hcontra
              rw [ha] at hcontra
              exact absurd hcontra.1 (by decide)
            rw [List.singleton_append,
              walk_assistant_nofold t hassist hnofold,
              walk_assistant_nil hassist]
            simp
          | next :: pre3 =>
            by_cases hfold : next.role = "user" ∧ has_tool_results next = true
            · rw [List.cons_append, List.cons_append,
                walk_assistant_fold _ hassist hfold,
                walk_assistant_fold _ hassist hfold,
                ih pre3 t (by simp at hlen; omega)]
              simp
            · rw [List.cons_append, List.cons_append,
                walk_assistant_nofold _ hassist hfold,
                walk_assistant_nofold _ hassist hfold,
                ← List.cons_append,
                ih (next :: pre3) t (by simp at hlen; simp; omega)]
              simp
        · rw [List.cons_append, walk_cons_other _ hu hassist,
            walk_cons_other _ hu hassist]
          exact ih pre2 t (by simpa using Nat.le_of_succ_le_succ hlen)

end CCProxy

namespace CCProxy

/-- Each tool_result block produces one tool-role message whose
tool_call_id is the block's tool_use_id, in block order. -/
theorem convert_claude_tool_results_proj (msg : ClaudeMessage) :
    (convert_claude_tool_results msg).map (fun m => m.role)
      = (toolResultIds msg).map (fun _ => "tool")
    ∧ (convert_claude_tool_results msg).map (fun m => m.tool_call_id)
      = (toolResultIds msg).map (fun i => some i) := by
  match h : msg.content with
  | MessageContent.strMsg s =>
    simp [convert_claude_tool_results, toolResultIds, h]
  | MessageContent.blocksMsg blocks =>
    simp only [convert_claude_tool_results, toolResultIds, h]
    clear h
    constructor <;>
    · induction blocks with
      | nil => rfl
      | cons b rest ih => cases b <;> simp [List.filterMap_cons, ih]

/-- C5: an assistant message followed by a user message whose blocks
include tool_result blocks yields, in the converted request, exactly
the assistant message followed immediately by one tool-role message per
tool_result block (tool_call_id = tool_use_id, in block order), and the
user message itself is not emitted as a user-role message. -/
theorem C5_tool_result_fold (claude_request : ClaudeMessagesRequest)
    (config : ModelsConfig) (min_tokens max_tokens : Nat)
    (pre post : List ClaudeMessage) (a u : ClaudeMessage)
    (hmsgs : claude_request.messages = pre ++ a :: u :: post)
    (ha : a.role = "assistant") (hu : u.role = "user")
    (htr : has_tool_results u = true) :
    (convert_claude_to_openai claude_request config min_tokens max_tokens).messages
      = systemMessages claude_request.system
          ++ convertMessageWalk pre
          ++ convert_claude_assistant_message a ::
              (convert_claude_tool_results u ++ convertMessageWalk post)
    ∧ (convert_claude_tool_results u).map (fun m => m.role)
        = (toolResultIds u).map (fun _ => "tool")
    ∧ (convert_claude_tool_results u).map (fun m => m.tool_call_id)
        = (toolResultIds u).map (fun i => some i) := by
  refine ⟨?_, (convert_claude_tool_results_proj u).1,
    (convert_claude_tool_results_proj u).2⟩
  show systemMessages claude_request.system
      ++ convertMessageWalk claude_request.messages = _
  rw [hmsgs, convertMessageWalk_append a ha pre.length pre _ (Nat.le_refl _),
    walk_assistant_fold post ha ⟨hu, htr⟩, List.append_assoc]

/-- C5 witness: the spec's scenario S3 (user "q", assistant tool_use
t1, user tool_result for t1) folds as claimed. -/
theorem C5_tool_result_fold_witness :
    (convert_claude_to_openai s3request
        { big_model := "gpt-4o", middle_model := "gpt-4o",
          small_model := "gpt-4o-mini" } 1 100).messages
      = systemMessages s3request.system
          ++ convertMessageWalk [s3userMsg]
          ++ convert_claude_assistant_message s3assistantMsg ::
              (convert_claude_tool_results s3toolResultMsg ++ convertMessageWalk [])
    ∧ (convert_claude_tool_results s3toolResultMsg).map (fun m => m.role)
        = (toolResultIds s3toolResultMsg).map (fun _ => "tool")
    ∧ (convert_claude_tool_results s3toolResultMsg).map (fun m => m.tool_call_id)
        = (toolResultIds s3toolResultMsg).map (fun i => some i) :=
  C5_tool_result_fold s3request
    { big_model := "gpt-4o", middle_model := "gpt-4o",
      small_model := "gpt-4o-mini" } 1 100
    [s3userMsg] [] s3assistantMsg s3toolResultMsg rfl rfl rfl rfl

end CCProxy

namespace CCProxy

/-- A key is absent exactly when lookup fails. -/
theorem lookupSlot_eq_none_iff {α : Type} {m : List (Nat × α)} {k : Nat} :
    lookupSlot m k = none ↔ k ∉ m.map Prod.fst := by
  induction m with
  | nil => simp [lookupSlot]
  | cons p rest ih =>
    obtain ⟨k0, v0⟩ := p
    by_cases hk : k0 = k
    · subst hk
      simp [lookupSlot]
    · simp only [lookupSlot, if_neg hk, ih, List.map_cons, List.mem_cons, not_or]
      constructor
      · exact fun hmem => ⟨fun he => hk he.symm, hmem⟩
      · exact fun hand => hand.2

/-- A successful lookup splits the list at the first occurrence of the
key, and an update rewrites exactly that entry. -/
theorem lookupSlot_split {α : Type} {m : List (Nat × α)} {k : Nat} {s : α}
    (h : lookupSlot m k = some s) :
    ∃ m1 m2, m = m1 ++ (k, s) :: m2 ∧ lookupSlot m1 k = none
      ∧ ∀ v, updateSlot m k v = m1 ++ (k, v) :: m2 := by
  induction m with
  | nil => simp [lookupSlot] at h
  | cons p rest ih =>
    obtain ⟨k0, v0⟩ := p
    by_cases hk : k0 = k
    · subst hk
      simp [lookupSlot] at h
      subst h
      refine ⟨[], rest, by simp, by simp [lookupSlot], fun v => ?_⟩
      simp [updateSlot]
    · simp only [lookupSlot, if_neg hk] at h
      obtain ⟨m1, m2, hm, hnone, hupd⟩ := ih h
      refine ⟨(k0, v0) :: m1, m2, by simp [hm], ?_, fun v => ?_⟩
      · simp [lookupSlot, hk, hnone]
      · simp [updateSlot, hk, hupd v]

/-- Lookup through an appended tail finds the front entry first. -/
theorem lookupSlot_append_left {α : Type} {m : List (Nat × α)} {k : Nat}
    {s : α} (l : List (Nat × α)) (h : lookupSlot m k = some s) :
    lookupSlot (m ++ l) k = some s := by
  induction m with
  | nil => simp [lookupSlot] at h
  | cons p rest ih =>
    obtain ⟨k0, v0⟩ := p
    by_cases hk : k0 = k
    · subst hk
      simp [lookupSlot] at h
      simp [lookupSlot, h]
    · simp only [lookupSlot, if_neg hk] at h
      simp [lookupSlot, hk, ih h]

/-- Lookup of a freshly appended key. -/
theorem lookupSlot_append_self {α : Type} {m : List (Nat × α)} {k : Nat}
    (v : α) (h : lookupSlot m k = none) :
    lookupSlot (m ++ [(k, v)]) k = some v := by
  induction m with
  | nil => simp [lookupSlot]
  | cons p rest ih =>
    obtain ⟨k0, v0⟩ := p
    by_cases hk : k0 = k
    · subst hk
      simp [lookupSlot] at h
    · simp only [lookupSlot, if_neg hk] at h
      simp [lookupSlot, hk, ih h]

/-- Lookup of another key through a fresh append. -/
theorem lookupSlot_append_other {α : Type} {m : List (Nat × α)} {k i : Nat}
    (v : α) (hik : i ≠ k) :
    lookupSlot (m ++ [(k, v)]) i = lookupSlot m i := by
  induction m with
  | nil =>
    simp only [List.nil_append, lookupSlot]
    rw [if_neg (fun h => hik h.symm)]
  | cons p rest ih =>
    obtain ⟨k0, v0⟩ := p
    by_cases hk : k0 = i
    · subst hk
      simp [lookupSlot]
    · simp [lookupSlot, hk, ih]

/-- Updating a key leaves every other key's lookup unchanged. -/
theorem lookupSlot_updateSlot_other {α : Type} {m : List (Nat × α)}
    {k i : Nat} (v : α) (hik : i ≠ k) :
    lookupSlot (updateSlot m k v) i = lookupSlot m i := by
  induction m with
  | nil => simp [updateSlot]
  | cons p rest ih =>
    obtain ⟨k0, v0⟩ := p
    by_cases hk : k0 = k
    · subst hk
      simp only [updateSlot, if_pos rfl, lookupSlot]
      rw [if_neg (fun h => hik h.symm), if_neg (fun h => hik h.symm)]
    · by_cases hi : k0 = i
      · subst hi
        simp [updateSlot, hk, lookupSlot]
      · simp [updateSlot, hk, lookupSlot, hi, ih]

/-- Updating a present key makes its lookup the new value. -/
theorem lookupSlot_updateSlot_self {α : Type} {m : List (Nat × α)}
    {k : Nat} {s : α} (v : α) (h : lookupSlot m k = some s) :
    lookupSlot (updateSlot m k v) k = some v := by
  obtain ⟨m1, m2, hm, hnone, hupd⟩ := lookupSlot_split h
  rw [hupd v]
  have hassoc : m1 ++ (k, v) :: m2 = (m1 ++ [(k, v)]) ++ m2 := by simp
  rw [hassoc]
  exact lookupSlot_append_left m2 (lookupSlot_append_self v hnone)

/-- Updating preserves the key list. -/
theorem updateSlot_keys {α : Type} (m : List (Nat × α)) (k : Nat) (v : α) :
    (updateSlot m k v).map Prod.fst = m.map Prod.fst := by
  induction m with
  | nil => rfl
  | cons p rest ih =>
    obtain ⟨k0, v0⟩ := p
    by_cases hk : k0 = k
    · subst hk
      simp [updateSlot]
    · simp [updateSlot, hk, ih]

/-- Members of an updated map are the new entry or old entries. -/
theorem mem_updateSlot {α : Type} {m : List (Nat × α)} {k : Nat} {v : α}
    {p : Nat × α} (h : p ∈ updateSlot m k v) : p = (k, v) ∨ p ∈ m := by
  induction m with
  | nil => simp [updateSlot] at h
  | cons q rest ih =>
    obtain ⟨k0, v0⟩ := q
    by_cases hk : k0 = k
    · subst hk
      simp only [updateSlot, if_pos rfl] at h
      rcases List.mem_cons.mp h with h1 | h1
      · exact Or.inl h1
      · exact Or.inr (List.mem_cons_of_mem _ h1)
    · simp only [updateSlot, if_neg hk] at h
      rcases List.mem_cons.mp h with h1 | h1
      · exact Or.inr (by simp [h1])
      · rcases ih h1 with h2 | h2
        · exact Or.inl h2
        · exact Or.inr (List.mem_cons_of_mem _ h2)

/-- Count of a started index after updating one slot: the old entry's
contribution is exchanged for the new one's. -/
theorem startedIdxs_count_update {m : List (Nat × ToolCallState)} {k : Nat}
    {s : ToolCallState} (v : ToolCallState) (i : Nat)
    (h : lookupSlot m k = some s) :
    (startedIdxs (updateSlot m k v)).count i + optCount (startedProj s) i
      = (startedIdxs m).count i + optCount (startedProj v) i := by
  obtain ⟨m1, m2, hm, hnone, hupd⟩ := lookupSlot_split h
  rw [hupd v, hm]
  unfold startedIdxs
  rw [List.filterMap_append, List.filterMap_append, List.filterMap_cons,
    List.filterMap_cons, List.count_append, List.count_append]
  cases hs : startedProj s <;> cases hv : startedProj v <;>
    simp [List.count_append, List.count_cons, optCount] <;>
    split_ifs <;> simp_all <;> omega

/-- Count of a json index after updating one slot. -/
theorem jsonSentIdxs_count_update {m : List (Nat × ToolCallState)} {k : Nat}
    {s : ToolCallState} (v : ToolCallState) (i : Nat)
    (h : lookupSlot m k = some s) :
    (jsonSentIdxs (updateSlot m k v)).count i + optCount (jsonProj s) i
      = (jsonSentIdxs m).count i + optCount (jsonProj v) i := by
  obtain ⟨m1, m2, hm, hnone, hupd⟩ := lookupSlot_split h
  rw [hupd v, hm]
  unfold jsonSentIdxs
  rw [List.filterMap_append, List.filterMap_append, List.filterMap_cons,
    List.filterMap_cons, List.count_append, List.count_append]
  cases hs : jsonProj s <;> cases hv : jsonProj v <;>
    simp [List.count_append, List.count_cons, optCount] <;>
    split_ifs <;> simp_all <;> omega

/-- Appending a fresh, unstarted slot changes neither index list. -/
theorem idxs_append_fresh (m : List (Nat × ToolCallState)) (k : Nat) :
    startedIdxs (m ++ [(k, freshToolCallState)]) = startedIdxs m
    ∧ jsonSentIdxs (m ++ [(k, freshToolCallState)]) = jsonSentIdxs m := by
  unfold startedIdxs jsonSentIdxs
  rw [List.filterMap_append, List.filterMap_append]
  simp [startedProj, jsonProj, freshToolCallState]

end CCProxy

namespace CCProxy

/-- Counting in a unit-step range. -/
theorem count_range' (i : Nat) : ∀ (s n : Nat),
    (List.range' s n).count i = if s ≤ i ∧ i < s + n then 1 else 0 := by
  intro s n
  induction n generalizing s with
  | zero =>
    have hno : ¬ (s ≤ i ∧ i < s) := by omega
    simp [hno]
  | succ n ih =>
    rw [List.range'_succ, List.count_cons, ih (s + 1)]
    simp only [beq_iff_eq]
    split_ifs <;> simp_all <;> omega

/-- Slot well-formedness is monotone in the counter. -/
theorem SlotWf_mono {c c' : Nat} {s : ToolCallState} (h : SlotWf c s)
    (hc : c ≤ c') : SlotWf c' s := by
  obtain ⟨h1, h2, h3⟩ := h
  refine ⟨fun hs => ?_, h2, h3⟩
  obtain ⟨hid, hname, i, hi, h1i, hic⟩ := h1 hs
  exact ⟨hid, hname, i, hi, h1i, Nat.le_trans hic hc⟩

/-- Slot evolution is reflexive. -/
theorem SlotMono_refl (s : ToolCallState) : SlotMono s s :=
  ⟨⟨"", by simp⟩, fun h => h, fun _ h => h, fun h => h⟩

/-- Slot evolution is transitive. -/
theorem SlotMono_trans {a b c : ToolCallState} (h1 : SlotMono a b)
    (h2 : SlotMono b c) : SlotMono a c := by
  obtain ⟨⟨t1, ht1⟩, hs1, hc1, hj1⟩ := h1
  obtain ⟨⟨t2, ht2⟩, hs2, hc2, hj2⟩ := h2
  exact ⟨⟨t1 ++ t2, by rw [ht2, ht1, String.append_assoc]⟩,
    fun h => hs2 (hs1 h), fun i h => hc2 i (hc1 i h), fun h => hj2 (hj1 h)⟩

/-- Map evolution is reflexive. -/
theorem MapMono_refl (m : List (Nat × ToolCallState)) : MapMono m m :=
  fun _ s h => ⟨s, h, SlotMono_refl s⟩

/-- Map evolution is transitive. -/
theorem MapMono_trans {a b c : List (Nat × ToolCallState)}
    (h1 : MapMono a b) (h2 : MapMono b c) : MapMono a c := by
  intro k s h
  obtain ⟨s1, hl1, hm1⟩ := h1 k s h
  obtain ⟨s2, hl2, hm2⟩ := h2 k s1 hl1
  exact ⟨s2, hl2, SlotMono_trans hm1 hm2⟩

/-- A json frame's promise survives map evolution. -/
theorem JsonFrameOk_mono {parse : String → Option JVal} {st st' : StreamSt}
    (hm : MapMono st.current_tool_calls st'.current_tool_calls)
    {fr : Frame} (h : JsonFrameOk parse st fr) : JsonFrameOk parse st' fr := by
  cases fr with
  | content_block_delta_json i pj =>
    obtain ⟨hp, k, s, hl, hci, hst, t, ht⟩ := h
    obtain ⟨s', hl', ⟨t2, ht2⟩, hs', hc', hj'⟩ := hm k s hl
    exact ⟨hp, k, s', hl', hc' i hci, hs' hst,
      t ++ t2, by rw [ht2, ht, String.append_assoc]⟩
  | message_start a b => trivial
  | content_block_start_text => trivial
  | ping => trivial
  | content_block_delta_text a b => trivial
  | content_block_start_tool a b c => trivial
  | errorEvt a => trivial
  | content_block_stop a => trivial
  | message_delta a b => trivial
  | message_stop => trivial

/-- A state transition that changes nothing observable. -/
theorem TransOk_refl (parse : String → Option JVal) {st st' : StreamSt}
    (hmap : st'.current_tool_calls = st.current_tool_calls)
    (hctr : st'.tool_block_counter = st.tool_block_counter) :
    TransOk parse st st' [] := by
  refine ⟨by omega, by simp [toolStartIndexes, hctr], by simp, ?_, ?_, ?_,
    by simp, by simp, by simp⟩
  · intro i
    simp [toolStartIndexes, hmap]
  · intro i
    simp [jsonDeltaIndexes, hmap]
  · rw [hmap]
    exact MapMono_refl _

/-- Transitions compose: the frames concatenate. -/
theorem TransOk_trans {parse : String → Option JVal} {st1 st2 st3 : StreamSt}
    {f1 f2 : List Frame} (h1 : TransOk parse st1 st2 f1)
    (h2 : TransOk parse st2 st3 f2) : TransOk parse st1 st3 (f1 ++ f2) := by
  obtain ⟨hc1, hr1, hb1, hs1, hj1, hm1, hjf1, ht1, he1⟩ := h1
  obtain ⟨hc2, hr2, hb2, hs2, hj2, hm2, hjf2, ht2, he2⟩ := h2
  refine ⟨Nat.le_trans hc1 hc2, ?_, ?_, ?_, ?_, MapMono_trans hm1 hm2, ?_, ?_, ?_⟩
  · unfold toolStartIndexes at hr1 hr2 ⊢
    rw [List.filterMap_append, hr1, hr2]
    have := List.range'_append (st1.tool_block_counter + 1)
      (st2.tool_block_counter - st1.tool_block_counter)
      (st3.tool_block_counter - st2.tool_block_counter) 1
    simp only [Nat.mul_one] at this
    rw [show st1.tool_block_counter + 1 + 1 *
        (st2.tool_block_counter - st1.tool_block_counter)
        = st2.tool_block_counter + 1 by omega] at this
    rw [show (st3.tool_block_counter - st2.tool_block_counter)
        + (st2.tool_block_counter - st1.tool_block_counter)
        = st3.tool_block_counter - st1.tool_block_counter by omega] at this
    exact this
  · intro fr hfr
    rcases List.mem_append.mp hfr with h | h
    · exact hb1 fr h
    · exact hb2 fr h
  · intro i
    unfold toolStartIndexes at hs1 hs2 ⊢
    rw [List.filterMap_append, List.count_append, hs2 i, hs1 i]
    omega
  · intro i
    unfold jsonDeltaIndexes at hj1 hj2 ⊢
    rw [List.filterMap_append, List.count_append, hj2 i, hj1 i]
    omega
  · intro fr hfr
    rcases List.mem_append.mp hfr with h | h
    · exact JsonFrameOk_mono hm2 (hjf1 fr h)
    · exact hjf2 fr h
  · intro i t hit
    rcases List.mem_append.mp hit with h | h
    · exact ht1 i t h
    · exact ht2 i t h
  · intro msg hmsg
    rcases List.mem_append.mp hmsg with h | h
    · exact he1 msg h
    · exact he2 msg h

end CCProxy

namespace CCProxy

/-- A transition with no frames: counters equal, index multisets equal,
map evolution. -/
theorem TransOk_nil (parse : String → Option JVal) {st st' : StreamSt}
    (hctr : st'.tool_block_counter = st.tool_block_counter)
    (hs : ∀ i, (startedIdxs st'.current_tool_calls).count i
        = (startedIdxs st.current_tool_calls).count i)
    (hj : ∀ i, (jsonSentIdxs st'.current_tool_calls).count i
        = (jsonSentIdxs st.current_tool_calls).count i)
    (hm : MapMono st.current_tool_calls st'.current_tool_calls) :
    TransOk parse st st' [] := by
  refine ⟨by omega, by simp [toolStartIndexes, hctr], by simp, ?_, ?_, hm,
    by simp, by simp, by simp⟩
  · intro i
    simpa [toolStartIndexes] using hs i
  · intro i
    simpa [jsonDeltaIndexes] using hj i

/-- The common tail of one tool_calls entry: slot k evolves from s0 to
sF, possibly bumping the counter, and the emitted frames account for
the change. -/
theorem finish_trans (parse : String → Option JVal)
    {st1 stOut : StreamSt} {k c2 : Nat} {s0 sF : ToolCallState}
    {fr : List Frame}
    (hwf : StWf st1)
    (hlk : lookupSlot st1.current_tool_calls k = some s0)
    (hmap : stOut.current_tool_calls = updateSlot st1.current_tool_calls k sF)
    (hctr : stOut.tool_block_counter = c2)
    (hc2 : st1.tool_block_counter ≤ c2)
    (hrange : toolStartIndexes fr
      = List.range' (st1.tool_block_counter + 1) (c2 - st1.tool_block_counter))
    (hstart : ∀ i, optCount (startedProj sF) i
      = (toolStartIndexes fr).count i + optCount (startedProj s0) i)
    (hjson : ∀ i, optCount (jsonProj sF) i
      = (jsonDeltaIndexes fr).count i + optCount (jsonProj s0) i)
    (hbody : ∀ f ∈ fr, isBodyFrame f = true)
    (hnotext : ∀ i t, Frame.content_block_delta_text i t ∈ fr → i = textBlockIndex)
    (hjfok : ∀ i pj, Frame.content_block_delta_json i pj ∈ fr →
      (parse pj).isSome = true ∧ sF.claude_index = some i ∧ sF.started = true
        ∧ ∃ t, sF.args_buffer = pj ++ t)
    (hnoerr : ∀ msg, Frame.errorEvt msg ∈ fr → False)
    (hswf : SlotWf c2 sF)
    (hmono : SlotMono s0 sF) :
    StWf stOut ∧ TransOk parse st1 stOut fr := by
  have hcount_started : ∀ i, (startedIdxs stOut.current_tool_calls).count i
      = (toolStartIndexes fr).count i
        + (startedIdxs st1.current_tool_calls).count i := by
    intro i
    have h1 := startedIdxs_count_update sF i hlk
    have h2 := hstart i
    rw [hmap]
    omega
  have hcount_json : ∀ i, (jsonSentIdxs stOut.current_tool_calls).count i
      = (jsonDeltaIndexes fr).count i
        + (jsonSentIdxs st1.current_tool_calls).count i := by
    intro i
    have h1 := jsonSentIdxs_count_update sF i hlk
    have h2 := hjson i
    rw [hmap]
    omega
  have hmm : MapMono st1.current_tool_calls stOut.current_tool_calls := by
    intro j s hj'
    by_cases hjk : j = k
    · subst hjk
      rw [hj'] at hlk
      cases hlk
      exact ⟨sF, by rw [hmap]; exact lookupSlot_updateSlot_self sF hj', hmono⟩
    · exact ⟨s, by rw [hmap]; rw [lookupSlot_updateSlot_other sF hjk]; exact hj',
        SlotMono_refl s⟩
  constructor
  · refine ⟨?_, ?_, ?_⟩
    · intro p hp
      rw [hmap] at hp
      rcases mem_updateSlot hp with h | h
      · rw [hctr, h]
        exact hswf
      · rw [hctr]
        exact SlotWf_mono (hwf.1 p h) hc2
    · rw [hmap, updateSlot_keys]
      exact hwf.2.1
    · intro i
      rw [hcount_started i, hctr]
      have hm1 := hwf.2.2 i
      have hfr : (toolStartIndexes fr).count i
          = if st1.tool_block_counter + 1 ≤ i ∧ i < st1.tool_block_counter + 1
              + (c2 - st1.tool_block_counter) then 1 else 0 := by
        rw [hrange]
        exact count_range' i _ _
      rw [hm1, hfr]
      split_ifs <;> omega
  · refine ⟨by omega, by rw [hctr]; exact hrange, hbody, hcount_started,
      hcount_json, hmm, ?_, hnotext, hnoerr⟩
    intro f hf
    cases f with
    | content_block_delta_json i pj =>
      obtain ⟨hp, hci, hst, t, ht⟩ := hjfok i pj hf
      exact ⟨hp, k, sF,
        by rw [hmap]; exact lookupSlot_updateSlot_self sF hlk, hci, hst, t, ht⟩
    | message_start a b => trivial
    | content_block_start_text => trivial
    | ping => trivial
    | content_block_delta_text a b => trivial
    | content_block_start_tool a b c => trivial
    | errorEvt a => trivial
    | content_block_stop a => trivial
    | message_delta a b => trivial
    | message_stop => trivial

end CCProxy

namespace CCProxy

/-- A fresh slot is well formed at any counter. -/
theorem SlotWf_fresh (c : Nat) : SlotWf c freshToolCallState := by
  refine ⟨fun h => ?_, fun h => ?_, fun _ => ⟨rfl, rfl⟩⟩ <;>
    simp [freshToolCallState] at h

/-- The ensure-present step: its state is well formed, nothing
observable changes, and the key is now present. -/
theorem ensure_ok (parse : String → Option JVal) {st st1 : StreamSt} {k : Nat}
    (hwf : StWf st)
    (h : st1 = if (lookupSlot st.current_tool_calls k).isSome then st
        else { st with current_tool_calls :=
                st.current_tool_calls ++ [(k, freshToolCallState)] }) :
    StWf st1 ∧ TransOk parse st st1 []
      ∧ ∃ s0, lookupSlot st1.current_tool_calls k = some s0 := by
  by_cases hk : (lookupSlot st.current_tool_calls k).isSome = true
  · rw [if_pos hk] at h
    subst h
    obtain ⟨s0, hs0⟩ := Option.isSome_iff_exists.mp hk
    exact ⟨hwf, TransOk_refl parse rfl rfl, s0, hs0⟩
  · rw [if_neg hk] at h
    have hnone : lookupSlot st.current_tool_calls k = none := by
      cases hl : lookupSlot st.current_tool_calls k with
      | none => rfl
      | some s => rw [hl] at hk; simp at hk
    have hmap1 : st1.current_tool_calls
        = st.current_tool_calls ++ [(k, freshToolCallState)] := by rw [h]
    have hctr1 : st1.tool_block_counter = st.tool_block_counter := by rw [h]
    have hidx := idxs_append_fresh st.current_tool_calls k
    refine ⟨⟨?_, ?_, ?_⟩, ?_, freshToolCallState, ?_⟩
    · intro p hp
      rw [hmap1] at hp
      rcases List.mem_append.mp hp with hmem | hmem
      · rw [hctr1]
        exact hwf.1 p hmem
      · have : p = (k, freshToolCallState) := by simpa using hmem
        rw [this]
        exact SlotWf_fresh _
    · rw [hmap1, List.map_append]
      rw [List.nodup_append]
      refine ⟨hwf.2.1, by simp, ?_⟩
      intro a ha
      simp only [List.map_cons, List.map_nil, List.mem_singleton]
      intro hb
      subst hb
      exact (lookupSlot_eq_none_iff.mp hnone) ha
    · intro i
      rw [hmap1, hidx.1, hctr1]
      exact hwf.2.2 i
    · refine TransOk_nil parse hctr1 ?_ ?_ ?_
      · intro i
        rw [hmap1, hidx.1]
      · intro i
        rw [hmap1, hidx.2]
      · intro j s hj
        refine ⟨s, ?_, SlotMono_refl s⟩
        rw [hmap1]
        by_cases hjk : j = k
        · subst hjk
          rw [hj] at hnone
          cases hnone
        · rw [lookupSlot_append_other _ hjk]
          exact hj
    · rw [hmap1]
      exact lookupSlot_append_self _ hnone

/-- Updating a slot's id leaves its projections unchanged. -/
theorem projs_setId (s : ToolCallState) (v : String) :
    startedProj { s with id := some v } = startedProj s
    ∧ jsonProj { s with id := some v } = jsonProj s := ⟨rfl, rfl⟩

/-- Updating a slot's name leaves its projections unchanged. -/
theorem projs_setName (s : ToolCallState) (v : String) :
    startedProj { s with name := some v } = startedProj s
    ∧ jsonProj { s with name := some v } = jsonProj s := ⟨rfl, rfl⟩

/-- Slot well-formedness survives an id update. -/
theorem SlotWf_setId {c : Nat} {s : ToolCallState} (h : SlotWf c s)
    (v : String) : SlotWf c { s with id := some v } := by
  obtain ⟨h1, h2, h3⟩ := h
  refine ⟨fun hs => ?_, h2, h3⟩
  obtain ⟨_, hname, hidx⟩ := h1 hs
  exact ⟨rfl, hname, hidx⟩

/-- Slot well-formedness survives a name update. -/
theorem SlotWf_setName {c : Nat} {s : ToolCallState} (h : SlotWf c s)
    (v : String) : SlotWf c { s with name := some v } := by
  obtain ⟨h1, h2, h3⟩ := h
  refine ⟨fun hs => ?_, h2, h3⟩
  obtain ⟨hid, _, hidx⟩ := h1 hs
  exact ⟨hid, rfl, hidx⟩

/-- Id and name updates are monotone slot evolutions. -/
theorem SlotMono_setId (s : ToolCallState) (v : String) :
    SlotMono s { s with id := some v } :=
  ⟨⟨"", by simp⟩, fun h => h, fun _ h => h, fun h => h⟩

/-- Id and name updates are monotone slot evolutions. -/
theorem SlotMono_setName (s : ToolCallState) (v : String) :
    SlotMono s { s with name := some v } :=
  ⟨⟨"", by simp⟩, fun h => h, fun _ h => h, fun h => h⟩

/-- optCount of the empty frame bookkeeping. -/
theorem optCount_same (o : Option Nat) (i : Nat) :
    optCount o i = (toolStartIndexes []).count i + optCount o i := by
  simp [toolStartIndexes]

end CCProxy

namespace CCProxy

/-- The id stage only sets the id field. -/
theorem updateIdStage_ok (tc : JVal) (s : ToolCallState) :
    SlotMono s (updateIdStage tc s)
    ∧ startedProj (updateIdStage tc s) = startedProj s
    ∧ jsonProj (updateIdStage tc s) = jsonProj s
    ∧ (∀ c, SlotWf c s → SlotWf c (updateIdStage tc s))
    ∧ (updateIdStage tc s).started = s.started
    ∧ (updateIdStage tc s).claude_index = s.claude_index
    ∧ (updateIdStage tc s).args_buffer = s.args_buffer
    ∧ (updateIdStage tc s).json_sent = s.json_sent := by
  unfold updateIdStage
  match (jGet tc "id").bind JVal.as_str with
  | some i =>
    exact ⟨SlotMono_setId s i, (projs_setId s i).1, (projs_setId s i).2,
      fun c h => SlotWf_setId h i, rfl, rfl, rfl, rfl⟩
  | none =>
    exact ⟨SlotMono_refl s, rfl, rfl, fun c h => h, rfl, rfl, rfl, rfl⟩

/-- The name stage only sets the name field. -/
theorem updateNameStage_ok (func : JVal) (s : ToolCallState) :
    SlotMono s (updateNameStage func s)
    ∧ startedProj (updateNameStage func s) = startedProj s
    ∧ jsonProj (updateNameStage func s) = jsonProj s
    ∧ (∀ c, SlotWf c s → SlotWf c (updateNameStage func s))
    ∧ (updateNameStage func s).started = s.started
    ∧ (updateNameStage func s).claude_index = s.claude_index
    ∧ (updateNameStage func s).args_buffer = s.args_buffer
    ∧ (updateNameStage func s).json_sent = s.json_sent := by
  unfold updateNameStage
  match (jGet func "name").bind JVal.as_str with
  | some n =>
    exact ⟨SlotMono_setName s n, (projs_setName s n).1, (projs_setName s n).2,
      fun c h => SlotWf_setName h n, rfl, rfl, rfl, rfl⟩
  | none =>
    exact ⟨SlotMono_refl s, rfl, rfl, fun c h => h, rfl, rfl, rfl, rfl⟩

/-- What the start transition guarantees. -/
theorem startStage_ok (st : StreamSt) (s : ToolCallState)
    (hs : SlotWf st.tool_block_counter s) :
    ∃ st' s' fr, startStage st s = (st', s', fr)
      ∧ st'.current_tool_calls = st.current_tool_calls
      ∧ st'.final_stop_reason = st.final_stop_reason
      ∧ st'.usage_data = st.usage_data
      ∧ st.tool_block_counter ≤ st'.tool_block_counter
      ∧ SlotMono s s'
      ∧ jsonProj s' = jsonProj s
      ∧ s'.json_sent = s.json_sent
      ∧ s'.args_buffer = s.args_buffer
      ∧ SlotWf st'.tool_block_counter s'
      ∧ (∀ i, optCount (startedProj s') i
          = (toolStartIndexes fr).count i + optCount (startedProj s) i)
      ∧ toolStartIndexes fr = List.range' (st.tool_block_counter + 1)
          (st'.tool_block_counter - st.tool_block_counter)
      ∧ jsonDeltaIndexes fr = []
      ∧ (∀ f ∈ fr, isBodyFrame f = true)
      ∧ (∀ i t, Frame.content_block_delta_text i t ∈ fr → False)
      ∧ (∀ i pj, Frame.content_block_delta_json i pj ∈ fr → False)
      ∧ (∀ msg, Frame.errorEvt msg ∈ fr → False) := by
  obtain ⟨sid, sname, sbuf, sjson, sclaude, sstart⟩ := s
  cases sid with
  | none =>
    exact ⟨st, _, [], rfl, rfl, rfl, rfl, Nat.le_refl _, SlotMono_refl _,
      rfl, rfl, rfl, hs, fun j => by simp [toolStartIndexes],
      by simp [toolStartIndexes], rfl, by simp, by simp, by simp, by simp⟩
  | some i =>
    cases sname with
    | none =>
      exact ⟨st, _, [], rfl, rfl, rfl, rfl, Nat.le_refl _, SlotMono_refl _,
        rfl, rfl, rfl, hs, fun j => by simp [toolStartIndexes],
        by simp [toolStartIndexes], rfl, by simp, by simp, by simp, by simp⟩
    | some n =>
      cases sstart with
      | true =>
        exact ⟨st, _, [], rfl, rfl, rfl, rfl, Nat.le_refl _, SlotMono_refl _,
          rfl, rfl, rfl, hs, fun j => by simp [toolStartIndexes],
          by simp [toolStartIndexes], rfl, by simp, by simp, by simp, by simp⟩
      | false =>
        have hclaude : sclaude = none := (hs.2.2 rfl).1
        have hjsonf : sjson = false := (hs.2.2 rfl).2
        subst hclaude
        subst hjsonf
        refine ⟨_, _, _, rfl, rfl, rfl, rfl, by simp, ?_, by rfl, rfl, rfl,
          ?_, ?_, ?_, rfl, by simp [isBodyFrame], by simp, by simp, by simp⟩
        · refine ⟨⟨"", by simp⟩, fun h => rfl, fun j hj => ?_, fun h => ?_⟩
          · cases hj
          · cases h
        · refine ⟨fun _ => ⟨rfl, rfl,
            textBlockIndex + (st.tool_block_counter + 1), rfl, ?_, ?_⟩,
            fun _ => rfl, fun hcontra => by simp at hcontra⟩
          · simp [textBlockIndex]
          · simp [textBlockIndex]
        · intro j
          by_cases hji : textBlockIndex + (st.tool_block_counter + 1) = j <;>
            simp [startedProj, optCount, toolStartIndexes, toolStartIdx,
              List.count_cons, hji]
        · simp [toolStartIndexes, toolStartIdx, textBlockIndex, List.range']

end CCProxy

namespace CCProxy

/-- What the argument accumulation guarantees. -/
theorem argStage_ok (parse : String → Option JVal) (func : JVal)
    (s : ToolCallState) :
    ∃ s' fr, argStage parse func s = (s', fr)
      ∧ SlotMono s s'
      ∧ startedProj s' = startedProj s
      ∧ s'.claude_index = s.claude_index
      ∧ s'.started = s.started
      ∧ (∀ c, SlotWf c s → SlotWf c s')
      ∧ toolStartIndexes fr = []
      ∧ (∀ f ∈ fr, isBodyFrame f = true)
      ∧ (∀ i t, Frame.content_block_delta_text i t ∈ fr → False)
      ∧ (∀ i, optCount (jsonProj s') i
          = (jsonDeltaIndexes fr).count i + optCount (jsonProj s) i)
      ∧ (∀ i pj, Frame.content_block_delta_json i pj ∈ fr →
          (parse pj).isSome = true ∧ s'.claude_index = some i
            ∧ s'.started = true ∧ ∃ t, s'.args_buffer = pj ++ t)
      ∧ (∀ msg, Frame.errorEvt msg ∈ fr → False) := by
  obtain ⟨sid, sname, sbuf, sjson, sclaude, sstart⟩ := s
  unfold argStage
  rcases harg : (jGet func "arguments").bind JVal.as_str with _ | args
  all_goals simp only [harg]
  · exact ⟨_, [], rfl, SlotMono_refl _, rfl, rfl, rfl, fun c h => h,
      by simp [toolStartIndexes], by simp, by simp,
      fun i => by simp [jsonDeltaIndexes], by simp, by simp⟩
  cases sstart with
  | false =>
    refine ⟨_, [], ?_, SlotMono_refl _, rfl, rfl, rfl, fun c h => h,
      by simp [toolStartIndexes], by simp, by simp,
      fun i => by simp [jsonDeltaIndexes], by simp, by simp⟩
    simp
  | true =>
    by_cases hne : args = ""
    · refine ⟨_, [], ?_, SlotMono_refl _, rfl, rfl, rfl, fun c h => h,
        by simp [toolStartIndexes], by simp, by simp,
        fun i => by simp [jsonDeltaIndexes], by simp, by simp⟩
      simp [hne]
    · cases sjson with
      | true =>
        refine ⟨(⟨sid, sname, sbuf ++ args, true, sclaude, true⟩ : ToolCallState),
          [], ?_, ?_, rfl, rfl, rfl, ?_,
          by simp [toolStartIndexes], by simp, by simp,
          fun i => by simp [jsonDeltaIndexes, jsonProj], by simp, by simp⟩
        · simp [hne]
        · exact ⟨⟨args, rfl⟩, fun h => h, fun j hj => hj, fun h => h⟩
        · exact fun c h => ⟨fun hs => h.1 hs, fun hj => h.2.1 hj,
            fun hn => by simp at hn⟩
      | false =>
        by_cases hp : (parse (sbuf ++ args)).isSome = true
        case neg =>
          refine ⟨(⟨sid, sname, sbuf ++ args, false, sclaude, true⟩ : ToolCallState),
            [], ?_, ?_, rfl, rfl, rfl, ?_,
            by simp [toolStartIndexes], by simp, by simp,
            fun i => by simp [jsonDeltaIndexes, jsonProj], by simp, by simp⟩
          · simp [hne, hp]
          · exact ⟨⟨args, rfl⟩, fun h => h, fun j hj => hj, fun h => by simp at h⟩
          · exact fun c h => ⟨fun hs => h.1 hs, fun hj => by simp at hj,
              fun hn => by simp at hn⟩
        case pos =>
          cases sclaude with
          | none =>
            refine ⟨(⟨sid, sname, sbuf ++ args, false, none, true⟩ : ToolCallState),
              [], ?_, ?_, rfl, rfl, rfl, ?_,
              by simp [toolStartIndexes], by simp, by simp,
              fun i => by simp [jsonDeltaIndexes, jsonProj], by simp, by simp⟩
            · simp [hne, hp]
            · exact ⟨⟨args, rfl⟩, fun h => h, fun j hj => hj, fun h => by simp at h⟩
            · exact fun c h => ⟨fun hs => h.1 hs, fun hj => by simp at hj,
                fun hn => by simp at hn⟩
          | some ci =>
            refine ⟨(⟨sid, sname, sbuf ++ args, true, some ci, true⟩ : ToolCallState),
              [Frame.content_block_delta_json ci (sbuf ++ args)],
              ?_, ?_, rfl, rfl, rfl, ?_,
              by simp [toolStartIndexes, toolStartIdx], by simp [isBodyFrame],
              by simp, ?_, ?_, by simp⟩
            · simp [hne, hp]
            · exact ⟨⟨args, rfl⟩, fun h => h, fun j hj => hj, fun h => by simp at h⟩
            · exact fun c h => ⟨fun hs => h.1 hs, fun _ => rfl,
                fun hn => by simp at hn⟩
            · intro i
              by_cases hji : ci = i <;>
                simp [jsonProj, optCount, jsonDeltaIndexes, jsonDeltaIdx,
                  List.count_cons, hji]
            · intro i pj hmem
              simp only [List.mem_singleton, Frame.content_block_delta_json.injEq]
                at hmem
              obtain ⟨hi, hpj⟩ := hmem
              subst hi
              subst hpj
              exact ⟨hp, rfl, rfl, "", by simp⟩

end CCProxy

namespace CCProxy

/-- One ensured tool_calls entry preserves well-formedness and is an
accounted transition. -/
theorem ptdCore_ok (parse : String → Option JVal) (st1 : StreamSt) (k : Nat)
    (tc : JVal) (hwf1 : StWf st1) :
    StWf (processToolDeltaCore parse st1 k tc).1
    ∧ TransOk parse st1 (processToolDeltaCore parse st1 k tc).1
        (processToolDeltaCore parse st1 k tc).2 := by
  rcases hlk : lookupSlot st1.current_tool_calls k with _ | slot0
  · unfold processToolDeltaCore
    rw [hlk]
    exact ⟨hwf1, TransOk_refl parse rfl rfl⟩
  have hswf0 : SlotWf st1.tool_block_counter slot0 :=
    hwf1.1 _ (lookupSlot_mem hlk)
  obtain ⟨hmono1, hsp1, hjp1, hswfpres1, _, _, _, _⟩ := updateIdStage_ok tc slot0
  have hswf1 : SlotWf st1.tool_block_counter (updateIdStage tc slot0) :=
    hswfpres1 _ hswf0
  rcases hfunc : jGet tc "function" with _ | func
  · -- no function object: only the id update is written back
    have heq : processToolDeltaCore parse st1 k tc
        = ({ st1 with current_tool_calls := updateSlot st1.current_tool_calls k (updateIdStage tc slot0) }, []) := by
      unfold processToolDeltaCore
      simp only [hlk, hfunc]
    rw [heq]
    refine finish_trans parse hwf1 hlk rfl rfl (Nat.le_refl _)
      (by simp [toolStartIndexes]) ?_ ?_ (by simp) (by simp) (by simp)
      (by simp) hswf1 hmono1
    · intro i
      rw [hsp1]
      simp [toolStartIndexes]
    · intro i
      rw [hjp1]
      simp [jsonDeltaIndexes]
  · -- function object present: name, start and argument stages
    obtain ⟨hmono2, hsp2, hjp2, hswfpres2, _, _, _, _⟩ :=
      updateNameStage_ok func (updateIdStage tc slot0)
    have hswf2 : SlotWf st1.tool_block_counter
        (updateNameStage func (updateIdStage tc slot0)) :=
      hswfpres2 _ hswf1
    obtain ⟨st2, s3, fr1, hss, hmap2, hstop2, husage2, hc2, hmono3, hjp3,
      _, _, hswf3, hstart3, hrange3, hjde3, hbody3, hnotext3, hnojson3,
      hnoerr3⟩ :=
      startStage_ok st1 (updateNameStage func (updateIdStage tc slot0)) hswf2
    obtain ⟨s4, fr2, haa, hmono4, hsp4, hci4, hstarted4, hswfpres4, hts4,
      hbody4, hnotext4, hjson4, hjfok4, hnoerr4⟩ :=
      argStage_ok parse func s3
    have heq : processToolDeltaCore parse st1 k tc
        = ({ st2 with current_tool_calls := updateSlot st2.current_tool_calls k s4 }, fr1 ++ fr2) := by
      unfold processToolDeltaCore
      simp only [hlk, hfunc, hss, haa]
    rw [heq]
    have hswf4 : SlotWf st2.tool_block_counter s4 := hswfpres4 _ hswf3
    have hmapOut : ({ st2 with current_tool_calls := updateSlot st2.current_tool_calls k s4 } : StreamSt).current_tool_calls
        = updateSlot st1.current_tool_calls k s4 := by
      show updateSlot st2.current_tool_calls k s4
        = updateSlot st1.current_tool_calls k s4
      rw [hmap2]
    refine finish_trans parse hwf1 hlk hmapOut rfl hc2 ?_ ?_ ?_ ?_ ?_ ?_ ?_
      hswf4 (SlotMono_trans hmono1 (SlotMono_trans hmono2
        (SlotMono_trans hmono3 hmono4)))
    · unfold toolStartIndexes at hrange3 hts4 ⊢
      rw [List.filterMap_append, hrange3, hts4, List.append_nil]
    · intro i
      unfold toolStartIndexes at hstart3 hts4 ⊢
      rw [List.filterMap_append, hts4, List.append_nil, hsp4, hstart3 i,
        hsp2, hsp1]
    · intro i
      unfold jsonDeltaIndexes at hjde3 hjson4 ⊢
      rw [List.filterMap_append, hjde3, List.nil_append, hjson4 i, hjp3,
        hjp2, hjp1]
    · intro f hf
      rcases List.mem_append.mp hf with h | h
      · exact hbody3 f h
      · exact hbody4 f h
    · intro i t hit
      rcases List.mem_append.mp hit with h | h
      · exact absurd h (by intro hc; exact hnotext3 i t hc)
      · exact absurd h (by intro hc; exact hnotext4 i t hc)
    · intro i pj hpj
      rcases List.mem_append.mp hpj with h | h
      · exact absurd h (by intro hc; exact hnojson3 i pj hc)
      · exact hjfok4 i pj h
    · intro msg hmsg
      rcases List.mem_append.mp hmsg with h | h
      · exact hnoerr3 msg h
      · exact hnoerr4 msg h

/-- One tool_calls entry (slot-ensuring included) preserves
well-formedness and is an accounted transition. -/
theorem ptd_ok (parse : String → Option JVal) (st : StreamSt) (tc : JVal)
    (hwf : StWf st) :
    StWf (processToolDelta parse st tc).1
    ∧ TransOk parse st (processToolDelta parse st tc).1
        (processToolDelta parse st tc).2 := by
  unfold processToolDelta
  obtain ⟨hwf1, ht1, s0, hlk⟩ := ensure_ok parse hwf
    (Eq.refl (if (lookupSlot st.current_tool_calls
        (((jGet tc "index").bind JVal.as_u64).getD 0)).isSome then st
      else { st with current_tool_calls := st.current_tool_calls
              ++ [((((jGet tc "index").bind JVal.as_u64).getD 0),
                  freshToolCallState)] }))
  obtain ⟨hwf2, ht2⟩ := ptdCore_ok parse _
    (((jGet tc "index").bind JVal.as_u64).getD 0) tc hwf1
  refine ⟨hwf2, ?_⟩
  have hcomp := TransOk_trans ht1 ht2
  simpa using hcomp

end CCProxy

namespace CCProxy

/-- The tool_calls fold accumulates frames on the right of the
accumulator. -/
theorem ptc_fold_acc (parse : String → Option JVal) :
    ∀ (tcs : List JVal) (st : StreamSt) (acc : List Frame),
      tcs.foldl (fun acc tc =>
        let r := processToolDelta parse acc.1 tc
        (r.1, acc.2 ++ r.2)) (st, acc)
      = ((tcs.foldl (fun acc tc =>
          let r := processToolDelta parse acc.1 tc
          (r.1, acc.2 ++ r.2)) (st, [])).1,
         acc ++ (tcs.foldl (fun acc tc =>
          let r := processToolDelta parse acc.1 tc
          (r.1, acc.2 ++ r.2)) (st, [])).2) := by
  intro tcs
  induction tcs with
  | nil =>
    intro st acc
    simp
  | cons tc rest ih =>
    intro st acc
    rw [List.foldl_cons, List.foldl_cons]
    rw [ih (processToolDelta parse st tc).1
      (acc ++ (processToolDelta parse st tc).2)]
    rw [ih (processToolDelta parse st tc).1
      ([] ++ (processToolDelta parse st tc).2)]
    simp [List.append_assoc]

/-- The tool_calls fold preserves well-formedness and is an accounted
transition. -/
theorem ptc_fold_ok (parse : String → Option JVal) :
    ∀ (tcs : List JVal) (st : StreamSt), StWf st →
      StWf (tcs.foldl (fun acc tc =>
        let r := processToolDelta parse acc.1 tc
        (r.1, acc.2 ++ r.2)) (st, [])).1
      ∧ TransOk parse st
        (tcs.foldl (fun acc tc =>
          let r := processToolDelta parse acc.1 tc
          (r.1, acc.2 ++ r.2)) (st, [])).1
        (tcs.foldl (fun acc tc =>
          let r := processToolDelta parse acc.1 tc
          (r.1, acc.2 ++ r.2)) (st, [])).2 := by
  intro tcs
  induction tcs with
  | nil =>
    intro st hwf
    exact ⟨hwf, TransOk_refl parse rfl rfl⟩
  | cons tc rest ih =>
    intro st hwf
    obtain ⟨hwf1, ht1⟩ := ptd_ok parse st tc hwf
    obtain ⟨hwf2, ht2⟩ := ih (processToolDelta parse st tc).1 hwf1
    rw [List.foldl_cons]
    rw [ptc_fold_acc parse rest (processToolDelta parse st tc).1
      ([] ++ (processToolDelta parse st tc).2)]
    constructor
    · exact hwf2
    · have := TransOk_trans ht1 ht2
      simpa using this

/-- The tool_calls handler preserves well-formedness and is an
accounted transition. -/
theorem ptc_ok (parse : String → Option JVal) (st : StreamSt)
    (delta : Option JVal) (hwf : StWf st) :
    StWf (processToolCalls parse st delta).1
    ∧ TransOk parse st (processToolCalls parse st delta).1
        (processToolCalls parse st delta).2 := by
  rcases harr : (delta.bind (fun d => jGet d "tool_calls")).bind JVal.as_array
    with _ | tcs
  · have heq : processToolCalls parse st delta = (st, []) := by
      unfold processToolCalls
      rw [harr]
    rw [heq]
    exact ⟨hwf, TransOk_refl parse rfl rfl⟩
  by_cases hemp : tcs.isEmpty = true
  · have heq : processToolCalls parse st delta = (st, []) := by
      unfold processToolCalls
      simp [harr, hemp]
    rw [heq]
    exact ⟨hwf, TransOk_refl parse rfl rfl⟩
  · have heq : processToolCalls parse st delta
        = tcs.foldl (fun acc tc =>
            let r := processToolDelta parse acc.1 tc
            (r.1, acc.2 ++ r.2)) (st, []) := by
      unfold processToolCalls
      simp [harr, hemp]
    rw [heq]
    exact ptc_fold_ok parse tcs st hwf

/-- Usage capture changes neither the slot map nor the counter. -/
theorem updateUsage_ok (st : StreamSt) (chunk : JVal) :
    (updateUsage st chunk).current_tool_calls = st.current_tool_calls
    ∧ (updateUsage st chunk).tool_block_counter = st.tool_block_counter := by
  unfold updateUsage
  rcases jGet chunk "usage" with _ | usage <;> simp

/-- The text delta handler yields only index-0 text frames. -/
theorem textDeltaFrames_ok (delta : Option JVal) :
    toolStartIndexes (textDeltaFrames delta) = []
    ∧ jsonDeltaIndexes (textDeltaFrames delta) = []
    ∧ (∀ f ∈ textDeltaFrames delta, isBodyFrame f = true)
    ∧ (∀ i t, Frame.content_block_delta_text i t ∈ textDeltaFrames delta →
        i = textBlockIndex)
    ∧ (∀ i pj, Frame.content_block_delta_json i pj ∈ textDeltaFrames delta →
        False)
    ∧ (∀ msg, Frame.errorEvt msg ∈ textDeltaFrames delta → False) := by
  rcases hstr : (delta.bind (fun d => jGet d "content")).bind JVal.as_str
    with _ | s
  · have heq : textDeltaFrames delta = [] := by
      unfold textDeltaFrames
      rw [hstr]
    rw [heq]
    exact ⟨rfl, rfl, by simp, by simp, by simp, by simp⟩
  by_cases hs : s ≠ ""
  · have heq : textDeltaFrames delta
        = [Frame.content_block_delta_text textBlockIndex s] := by
      unfold textDeltaFrames
      simp [hstr, hs]
    rw [heq]
    refine ⟨rfl, rfl, by simp [isBodyFrame], ?_, by simp, by simp⟩
    intro i t hit
    simp only [List.mem_singleton, Frame.content_block_delta_text.injEq] at hit
    exact hit.1
  · have heq : textDeltaFrames delta = [] := by
      unfold textDeltaFrames
      simp [hstr, hs]
    rw [heq]
    exact ⟨rfl, rfl, by simp, by simp, by simp, by simp⟩

/-- Prepending the text frames of a chunk to an accounted transition
keeps it accounted. -/
theorem TransOk_textPrepend {parse : String → Option JVal}
    {st st' : StreamSt} {fr : List Frame} (delta : Option JVal)
    (h : TransOk parse st st' fr) :
    TransOk parse st st' (textDeltaFrames delta ++ fr) := by
  obtain ⟨hts, hjd, hb, ht, hjn, hnoe⟩ := textDeltaFrames_ok delta
  obtain ⟨hc1, hr1, hb1, hs1, hj1, hm1, hjf1, ht1, he1⟩ := h
  refine ⟨hc1, ?_, ?_, ?_, ?_, hm1, ?_, ?_, ?_⟩
  · unfold toolStartIndexes at hts hr1 ⊢
    rw [List.filterMap_append, hts, List.nil_append, hr1]
  · intro f hf
    rcases List.mem_append.mp hf with hmem | hmem
    · exact hb f hmem
    · exact hb1 f hmem
  · intro i
    unfold toolStartIndexes at hts hs1 ⊢
    rw [List.filterMap_append, hts, List.nil_append, hs1 i]
  · intro i
    unfold jsonDeltaIndexes at hjd hj1 ⊢
    rw [List.filterMap_append, hjd, List.nil_append, hj1 i]
  · intro f hf
    rcases List.mem_append.mp hf with hmem | hmem
    · cases f with
      | content_block_delta_json i pj => exact absurd hmem (fun hc => hjn i pj hc)
      | message_start a b => trivial
      | content_block_start_text => trivial
      | ping => trivial
      | content_block_delta_text a b => trivial
      | content_block_start_tool a b c => trivial
      | errorEvt a => trivial
      | content_block_stop a => trivial
      | message_delta a b => trivial
      | message_stop => trivial
    · exact hjf1 f hmem
  · intro i t hit
    rcases List.mem_append.mp hit with hmem | hmem
    · exact ht i t hmem
    · exact ht1 i t hmem
  · intro msg hmsg
    rcases List.mem_append.mp hmsg with hmem | hmem
    · exact absurd hmem (fun hc => hnoe msg hc)
    · exact he1 msg hmem
      
end CCProxy

namespace CCProxy

/-- Every accounted chunk transition is a loop transition. -/
theorem TransOk_toL {parse : String → Option JVal} {st st' : StreamSt}
    {frames : List Frame} (h : TransOk parse st st' frames) :
    TransOkL parse st st' frames := by
  obtain ⟨h1, h2, h3, h4, h5, h6, h7, h8, _⟩ := h
  exact ⟨h1, h2, h3, h4, h5, h6, h7, h8⟩

/-- Loop transitions compose. -/
theorem TransOkL_trans {parse : String → Option JVal} {st1 st2 st3 : StreamSt}
    {f1 f2 : List Frame} (h1 : TransOkL parse st1 st2 f1)
    (h2 : TransOkL parse st2 st3 f2) : TransOkL parse st1 st3 (f1 ++ f2) := by
  obtain ⟨hc1, hr1, hb1, hs1, hj1, hm1, hjf1, ht1⟩ := h1
  obtain ⟨hc2, hr2, hb2, hs2, hj2, hm2, hjf2, ht2⟩ := h2
  refine ⟨Nat.le_trans hc1 hc2, ?_, ?_, ?_, ?_, MapMono_trans hm1 hm2, ?_, ?_⟩
  · unfold toolStartIndexes at hr1 hr2 ⊢
    rw [List.filterMap_append, hr1, hr2]
    have := List.range'_append (st1.tool_block_counter + 1)
      (st2.tool_block_counter - st1.tool_block_counter)
      (st3.tool_block_counter - st2.tool_block_counter) 1
    simp only [Nat.mul_one] at this
    rw [show st1.tool_block_counter + 1 + 1 *
        (st2.tool_block_counter - st1.tool_block_counter)
        = st2.tool_block_counter + 1 by omega] at this
    rw [show (st3.tool_block_counter - st2.tool_block_counter)
        + (st2.tool_block_counter - st1.tool_block_counter)
        = st3.tool_block_counter - st1.tool_block_counter by omega] at this
    exact this
  · intro fr hfr
    rcases List.mem_append.mp hfr with h | h
    · exact hb1 fr h
    · exact hb2 fr h
  · intro i
    unfold toolStartIndexes at hs1 hs2 ⊢
    rw [List.filterMap_append, List.count_append, hs2 i, hs1 i]
    omega
  · intro i
    unfold jsonDeltaIndexes at hj1 hj2 ⊢
    rw [List.filterMap_append, List.count_append, hj2 i, hj1 i]
    omega
  · intro fr hfr
    rcases List.mem_append.mp hfr with h | h
    · exact JsonFrameOk_mono hm2 (hjf1 fr h)
    · exact hjf2 fr h
  · intro i t hit
    rcases List.mem_append.mp hit with h | h
    · exact ht1 i t h
    · exact ht2 i t h

/-- A loop transition is insensitive to the stop-reason and usage
fields of its end state. -/
theorem TransOkL_congr {parse : String → Option JVal} {st st' st'' : StreamSt}
    {frames : List Frame} (h : TransOkL parse st st' frames)
    (hmap : st''.current_tool_calls = st'.current_tool_calls)
    (hctr : st''.tool_block_counter = st'.tool_block_counter) :
    TransOkL parse st st'' frames := by
  obtain ⟨h1, h2, h3, h4, h5, h6, h7, h8⟩ := h
  refine ⟨by omega, by rw [hctr]; exact h2, h3, ?_, ?_, ?_, ?_, h8⟩
  · intro i
    rw [hmap]
    exact h4 i
  · intro i
    rw [hmap]
    exact h5 i
  · rw [hmap]
    exact h6
  · intro fr hfr
    have := h7 fr hfr
    cases fr with
    | content_block_delta_json i pj =>
      obtain ⟨hp, k, s, hl, rest⟩ := this
      exact ⟨hp, k, s, by rw [hmap]; exact hl, rest⟩
    | message_start a b => trivial
    | content_block_start_text => trivial
    | ping => trivial
    | content_block_delta_text a b => trivial
    | content_block_start_tool a b c => trivial
    | errorEvt a => trivial
    | content_block_stop a => trivial
    | message_delta a b => trivial
    | message_stop => trivial

/-- The loop transition of the single error frame. -/
theorem TransOkL_errFrame (parse : String → Option JVal) (st : StreamSt)
    (msg : String) : TransOkL parse st st [Frame.errorEvt msg] := by
  refine ⟨Nat.le_refl _, ?_, ?_, ?_, ?_, MapMono_refl _, ?_, ?_⟩
  · simp [toolStartIndexes, toolStartIdx]
  · simp [isBodyFrame]
  · intro i
    simp [toolStartIndexes, toolStartIdx]
  · intro i
    simp [jsonDeltaIndexes, jsonDeltaIdx]
  · intro fr hfr
    simp only [List.mem_singleton] at hfr
    subst hfr
    trivial
  · intro i t hit
    simp at hit

/-- A frame list without error frames counts zero errors. -/
theorem countErrorFrames_eq_zero {frames : List Frame}
    (h : ∀ msg, Frame.errorEvt msg ∈ frames → False) :
    countErrorFrames frames = 0 := by
  unfold countErrorFrames
  rw [List.length_eq_zero]
  rw [List.filter_eq_nil]
  intro f hf
  cases f with
  | errorEvt m => exact absurd hf (fun hc => h m hc)
  | message_start a b => simp [isErrorFrame]
  | content_block_start_text => simp [isErrorFrame]
  | ping => simp [isErrorFrame]
  | content_block_delta_text a b => simp [isErrorFrame]
  | content_block_start_tool a b c => simp [isErrorFrame]
  | content_block_delta_json a b => simp [isErrorFrame]
  | content_block_stop a => simp [isErrorFrame]
  | message_delta a b => simp [isErrorFrame]
  | message_stop => simp [isErrorFrame]

/-- Error counting distributes over append. -/
theorem countErrorFrames_append (a b : List Frame) :
    countErrorFrames (a ++ b) = countErrorFrames a + countErrorFrames b := by
  unfold countErrorFrames
  rw [List.filter_append, List.length_append]

end CCProxy

namespace CCProxy

/-- A loop transition is insensitive to the stop-reason and usage
fields of its start state. -/
theorem TransOkL_congrL {parse : String → Option JVal} {stA stB st2 : StreamSt}
    {fr : List Frame} (h : TransOkL parse stA st2 fr)
    (hmap : stA.current_tool_calls = stB.current_tool_calls)
    (hctr : stA.tool_block_counter = stB.tool_block_counter) :
    TransOkL parse stB st2 fr := by
  obtain ⟨h1, h2, h3, h4, h5, h6, h7, h8⟩ := h
  refine ⟨by omega, by rw [← hctr]; exact h2, h3, ?_, ?_, ?_, h7, h8⟩
  · intro i
    rw [← hmap]
    exact h4 i
  · intro i
    rw [← hmap]
    exact h5 i
  · rw [← hmap]
    exact h6

/-- The main loop preserves well-formedness, performs one loop
transition from its entry state to its final state with exactly the
frames it yields, and yields exactly one error frame when it exits on a
failure item and none otherwise. -/
theorem runLoop_ok (parse : String → Option JVal) :
    ∀ (input : List (Except String String)) (st : StreamSt), StWf st →
      StWf (runLoop parse st input).1
      ∧ TransOkL parse st (runLoop parse st input).1 (runLoop parse st input).2.1
      ∧ countErrorFrames (runLoop parse st input).2.1
          = (if (runLoop parse st input).2.2 = ExitKind.errExit then 1 else 0) := by
  intro input
  induction input with
  | nil =>
    intro st hwf
    refine ⟨hwf, TransOk_toL (TransOk_refl parse rfl rfl), ?_⟩
    simp [runLoop, countErrorFrames]
  | cons item rest ih =>
    intro st hwf
    cases item with
    | error e =>
      have heq : runLoop parse st (Except.error e :: rest)
          = (st, [Frame.errorEvt ("Stream error: " ++ e)], ExitKind.errExit) :=
        rfl
      rw [heq]
      refine ⟨hwf, TransOkL_errFrame parse st _, ?_⟩
      simp [countErrorFrames, isErrorFrame]
    | ok line =>
      rcases hdp : dataPayload (trimChars line.data) with _ | payload
      · have heq : runLoop parse st (Except.ok line :: rest)
            = runLoop parse st rest := by
          conv_lhs => unfold runLoop
          simp only [hdp]
        rw [heq]
        exact ih st hwf
      by_cases hds : isDoneSentinel payload = true
      · have heq : runLoop parse st (Except.ok line :: rest)
            = (st, [], ExitKind.doneExit) := by
          conv_lhs => unfold runLoop
          simp [hdp, hds]
        rw [heq]
        refine ⟨hwf, TransOk_toL (TransOk_refl parse rfl rfl), ?_⟩
        simp [countErrorFrames]
      have hds' : isDoneSentinel payload = false := by
        simpa using hds
      rcases hp : parse (String.mk payload) with _ | chunk
      · have heq : runLoop parse st (Except.ok line :: rest)
            = runLoop parse st rest := by
          conv_lhs => unfold runLoop
          simp [hdp, hds', hp]
        rw [heq]
        exact ih st hwf
      have hu := updateUsage_ok st chunk
      have hwf1 : StWf (updateUsage st chunk) := by
        unfold StWf
        rw [hu.1, hu.2]
        exact hwf
      rcases hch : (jGet chunk "choices").bind JVal.as_array with _ | choices
      · have heq : runLoop parse st (Except.ok line :: rest)
            = runLoop parse (updateUsage st chunk) rest := by
          conv_lhs => unfold runLoop
          simp [hdp, hds', hp, hch]
        rw [heq]
        obtain ⟨hwfR, htR, heR⟩ := ih (updateUsage st chunk) hwf1
        exact ⟨hwfR, TransOkL_congrL htR hu.1 hu.2, heR⟩
      cases choices with
      | nil =>
        have heq : runLoop parse st (Except.ok line :: rest)
            = runLoop parse (updateUsage st chunk) rest := by
          conv_lhs => unfold runLoop
          simp [hdp, hds', hp, hch]
        rw [heq]
        obtain ⟨hwfR, htR, heR⟩ := ih (updateUsage st chunk) hwf1
        exact ⟨hwfR, TransOkL_congrL htR hu.1 hu.2, heR⟩
      | cons choice cs =>
        obtain ⟨hwfP, htP⟩ :=
          ptc_ok parse (updateUsage st chunk) (jGet choice "delta") hwf1
        have hnoerrP : ∀ msg, Frame.errorEvt msg ∈
            (processToolCalls parse (updateUsage st chunk)
              (jGet choice "delta")).2 → False :=
          htP.2.2.2.2.2.2.2.2
        have htP2 : TransOk parse (updateUsage st chunk)
            (processToolCalls parse (updateUsage st chunk)
              (jGet choice "delta")).1
            (textDeltaFrames (jGet choice "delta")
              ++ (processToolCalls parse (updateUsage st chunk)
                    (jGet choice "delta")).2) :=
          TransOk_textPrepend (jGet choice "delta") htP
        have htPL : TransOkL parse st
            (processToolCalls parse (updateUsage st chunk)
              (jGet choice "delta")).1
            (textDeltaFrames (jGet choice "delta")
              ++ (processToolCalls parse (updateUsage st chunk)
                    (jGet choice "delta")).2) :=
          TransOkL_congrL (TransOk_toL htP2) hu.1 hu.2
        have hef0 : countErrorFrames (textDeltaFrames (jGet choice "delta")
            ++ (processToolCalls parse (updateUsage st chunk)
                  (jGet choice "delta")).2) = 0 := by
          rw [countErrorFrames_append,
            countErrorFrames_eq_zero (textDeltaFrames_ok
              (jGet choice "delta")).2.2.2.2.2,
            countErrorFrames_eq_zero hnoerrP]
        rcases hfin : (jGet choice "finish_reason").bind JVal.as_str
          with _ | reason
        · have heq : runLoop parse st (Except.ok line :: rest)
              = ((runLoop parse (processToolCalls parse (updateUsage st chunk)
                    (jGet choice "delta")).1 rest).1,
                 textDeltaFrames (jGet choice "delta")
                   ++ (processToolCalls parse (updateUsage st chunk)
                        (jGet choice "delta")).2
                   ++ (runLoop parse (processToolCalls parse
                        (updateUsage st chunk) (jGet choice "delta")).1
                        rest).2.1,
                 (runLoop parse (processToolCalls parse (updateUsage st chunk)
                    (jGet choice "delta")).1 rest).2.2) := by
            conv_lhs => unfold runLoop
            simp [hdp, hds', hp, hch, hfin]
          rw [heq]
          obtain ⟨hwfR, htR, heR⟩ := ih (processToolCalls parse
            (updateUsage st chunk) (jGet choice "delta")).1 hwfP
          refine ⟨hwfR, ?_, ?_⟩
          · exact TransOkL_trans htPL htR
          · rw [countErrorFrames_append, hef0, heR]
            simp
        · have heq : runLoop parse st (Except.ok line :: rest)
              = ({ (processToolCalls parse (updateUsage st chunk)
                      (jGet choice "delta")).1 with
                    final_stop_reason := mapFinishReason reason },
                 textDeltaFrames (jGet choice "delta")
                   ++ (processToolCalls parse (updateUsage st chunk)
                        (jGet choice "delta")).2,
                 ExitKind.finishExit) := by
            conv_lhs => unfold runLoop
            simp [hdp, hds', hp, hch, hfin]
          rw [heq]
          refine ⟨?_, ?_, ?_⟩
          · unfold StWf
            exact hwfP
          · exact TransOkL_congr htPL rfl rfl
          · simpa using hef0

end CCProxy

namespace CCProxy

/-- The initial loop state is well formed. -/
theorem StWf_init : StWf initStreamSt := by
  refine ⟨?_, ?_, ?_⟩
  · intro p hp
    simp [initStreamSt] at hp
  · simp [initStreamSt]
  · intro i
    simp only [initStreamSt, startedIdxs, List.filterMap_nil, List.count_nil]
    split_ifs with h
    · omega
    · rfl

/-- Body frames are never stop frames. -/
theorem stopIdx_of_bodyFrame {fr : Frame} (h : isBodyFrame fr = true) :
    stopIdx fr = none := by
  cases fr <;> first | rfl | simp [isBodyFrame] at h

/-- A list of body frames has no stop indices. -/
theorem stopIndexes_of_body {frames : List Frame}
    (h : ∀ f ∈ frames, isBodyFrame f = true) : stopIndexes frames = [] := by
  unfold stopIndexes
  rw [List.filterMap_eq_nil]
  intro f hf
  exact stopIdx_of_bodyFrame (h f hf)

/-- Stop indices distribute over append. -/
theorem stopIndexes_append (a b : List Frame) :
    stopIndexes (a ++ b) = stopIndexes a ++ stopIndexes b := by
  unfold stopIndexes
  rw [List.filterMap_append]

/-- A leading stop frame contributes its index. -/
theorem stopIndexes_cons_stop (j : Nat) (l : List Frame) :
    stopIndexes (Frame.content_block_stop j :: l) = j :: stopIndexes l := rfl

/-- In a map of well-formed slots, every json-sent index is counted no
more often than the same started index. -/
theorem jsonSent_count_le {c : Nat} :
    ∀ (m : List (Nat × ToolCallState)), (∀ p ∈ m, SlotWf c p.2) →
    ∀ i, (jsonSentIdxs m).count i ≤ (startedIdxs m).count i := by
  intro m
  induction m with
  | nil =>
    intro _ i
    simp [jsonSentIdxs, startedIdxs]
  | cons p m ih =>
    intro h i
    have hp := h p (List.mem_cons_self p m)
    have hm := ih (fun q hq => h q (List.mem_cons_of_mem p hq)) i
    unfold jsonSentIdxs startedIdxs at hm ⊢
    rw [List.filterMap_cons, List.filterMap_cons]
    rcases hj : jsonProj p.2 with _ | j
    · rcases hs : startedProj p.2 with _ | v
      · exact hm
      · simp only [List.count_cons]
        split_ifs <;> omega
    · have hsp : startedProj p.2 = some j := by
        unfold jsonProj at hj
        unfold startedProj
        by_cases hjs : p.2.json_sent = true
        · rw [if_pos (hp.2.1 hjs)]
          rw [if_pos hjs] at hj
          exact hj
        · rw [if_neg hjs] at hj
          exact Option.noConfusion hj
      rw [hsp]
      simp only [List.count_cons]
      split_ifs <;> omega

/-- A stored started slot makes its output index counted at least
once. -/
theorem startedIdxs_count_pos {k : Nat} {s : ToolCallState} {i : Nat} :
    ∀ (m : List (Nat × ToolCallState)), (k, s) ∈ m → startedProj s = some i →
    1 ≤ (startedIdxs m).count i := by
  intro m
  induction m with
  | nil =>
    intro hmem _
    simp at hmem
  | cons q m ih =>
    intro hmem hp
    unfold startedIdxs
    rw [List.filterMap_cons]
    rcases List.mem_cons.mp hmem with hq | hq
    · rw [← hq]
      rw [hp]
      simp [List.count_cons]
    · rcases h2 : startedProj q.2 with _ | j
      · exact ih hq hp
      · have := ih hq hp
        unfold startedIdxs at this
        simp only [List.count_cons]
        split_ifs <;> omega

/-- Two distinct stored started slots on the same output index make it
counted at least twice. -/
theorem startedIdxs_count_two {k1 k2 : Nat} {s1 s2 : ToolCallState} {i : Nat} :
    ∀ (m : List (Nat × ToolCallState)), (k1, s1) ∈ m → (k2, s2) ∈ m →
    k1 ≠ k2 → startedProj s1 = some i → startedProj s2 = some i →
    2 ≤ (startedIdxs m).count i := by
  intro m
  induction m with
  | nil =>
    intro h1 _ _ _ _
    simp at h1
  | cons q m ih =>
    intro h1 h2 hne hp1 hp2
    unfold startedIdxs
    rw [List.filterMap_cons]
    rcases List.mem_cons.mp h1 with hq1 | hq1
    · have h2m : (k2, s2) ∈ m := by
        rcases List.mem_cons.mp h2 with hq2 | hq2
        · exfalso
          rw [← hq1] at hq2
          exact hne (congrArg Prod.fst hq2).symm
        · exact hq2
      rw [← hq1, hp1]
      have := startedIdxs_count_pos m h2m hp2
      unfold startedIdxs at this
      simp only [List.count_cons]
      split_ifs with hcond
      · omega
      · simp at hcond
    · rcases List.mem_cons.mp h2 with hq2 | hq2
      · rw [← hq2, hp2]
        have := startedIdxs_count_pos m hq1 hp1
        unfold startedIdxs at this
        simp only [List.count_cons]
        split_ifs with hcond
        · omega
        · simp at hcond
      · have := ih hq1 hq2 hne hp1 hp2
        unfold startedIdxs at this
        rcases h2q : startedProj q.2 with _ | j
        · exact this
        · simp only [List.count_cons]
          split_ifs <;> omega

/-- In a well-formed state at most one slot occupies each started output
index, so two started slots with the same index are one slot. -/
theorem started_slot_unique {st : StreamSt} (hwf : StWf st)
    {k1 k2 : Nat} {s1 s2 : ToolCallState} {i : Nat}
    (h1 : lookupSlot st.current_tool_calls k1 = some s1)
    (h2 : lookupSlot st.current_tool_calls k2 = some s2)
    (hp1 : startedProj s1 = some i) (hp2 : startedProj s2 = some i) :
    k1 = k2 ∧ s1 = s2 := by
  by_cases hk : k1 = k2
  · subst hk
    rw [h1] at h2
    exact ⟨rfl, Option.some.inj h2⟩
  · exfalso
    have hm1 := lookupSlot_mem h1
    have hm2 := lookupSlot_mem h2
    have h2c := startedIdxs_count_two st.current_tool_calls hm1 hm2 hk hp1 hp2
    have h1c := hwf.2.2 i
    rw [h1c] at h2c
    split_ifs at h2c <;> omega

end CCProxy

namespace CCProxy

/-- The tool stop frames of the postlude are, as a multiset, exactly one
content_block_stop per started output index. -/
theorem postludeToolStops_perm
    {valuesOrder : List (Nat × ToolCallState) → List ToolCallState}
    (hvo : ValidValuesOrder valuesOrder) (st : StreamSt) :
    List.Perm (postludeToolStops valuesOrder st)
      ((startedIdxs st.current_tool_calls).map Frame.content_block_stop) := by
  unfold postludeToolStops
  have hfun : ∀ td : ToolCallState,
      (if td.started then
        match td.claude_index with
        | some idx => some (Frame.content_block_stop idx)
        | none => none
       else none)
      = (startedProj td).map Frame.content_block_stop := by
    intro td
    unfold startedProj
    by_cases h : td.started = true
    · rw [if_pos h, if_pos h]
      rcases td.claude_index with _ | idx <;> rfl
    · rw [if_neg h, if_neg h]
      rfl
  simp only [hfun]
  refine List.Perm.trans
    (List.Perm.filterMap _ (hvo st.current_tool_calls)) ?_
  rw [List.filterMap_map]
  unfold startedIdxs
  rw [List.map_filterMap]
  exact List.Perm.refl _

/-- The stop indices of the postlude's tool stops are, as a multiset,
the started output indices. -/
theorem postludeToolStops_stopIndexes
    {valuesOrder : List (Nat × ToolCallState) → List ToolCallState}
    (hvo : ValidValuesOrder valuesOrder) (st : StreamSt) :
    List.Perm (stopIndexes (postludeToolStops valuesOrder st))
      (startedIdxs st.current_tool_calls) := by
  have h := List.Perm.filterMap stopIdx (postludeToolStops_perm hvo st)
  unfold stopIndexes
  refine h.trans ?_
  rw [List.filterMap_map]
  have hsome : (stopIdx ∘ Frame.content_block_stop) = some := rfl
  rw [hsome]
  rw [show (some : Nat → Option Nat) = some ∘ id from rfl,
    List.filterMap_eq_map id]
  simp

/-- No error frame hides among the postlude's tool stops. -/
theorem postludeToolStops_no_error
    {valuesOrder : List (Nat × ToolCallState) → List ToolCallState}
    (hvo : ValidValuesOrder valuesOrder) (st : StreamSt) (msg : String)
    (hmem : Frame.errorEvt msg ∈ postludeToolStops valuesOrder st) : False := by
  have h := (postludeToolStops_perm hvo st).mem_iff.mp hmem
  simp [List.mem_map] at h

end CCProxy

namespace CCProxy

/-- C1: for every input stream — blank lines, non-data lines,
unparseable payloads, the [DONE] sentinel and failure items included —
the streaming translator's output starts with message_start,
content_block_start(0) and ping before any other frame, ends with
message_delta then message_stop, holds in between exactly one
content_block_stop(0) and exactly one content_block_stop per started
tool slot, and holds exactly one error frame (emitted before the
closing frames) exactly when the loop exited on a failure item. -/
theorem C1_stream_envelope (parse : String → Option JVal)
    (valuesOrder : List (Nat × ToolCallState) → List ToolCallState)
    (message_id original_model : String)
    (input : List (Except String String))
    (hvo : ValidValuesOrder valuesOrder) :
    StreamEnvelope parse valuesOrder message_id original_model input := by
  obtain ⟨hwfF, hT, hErr⟩ := runLoop_ok parse input initStreamSt StWf_init
  unfold StreamEnvelope
  refine ⟨(runLoop parse initStreamSt input).2.1,
    postludeToolStops valuesOrder (runLoop parse initStreamSt input).1,
    (runLoop parse initStreamSt input).1.final_stop_reason,
    (runLoop parse initStreamSt input).1.usage_data,
    ?_, hT.2.2.1, ?_, ?_, hErr, ?_⟩
  · unfold convert_openai_streaming_to_claude preludeFrames postludeFrames
      postludeToolStops
    simp [List.append_assoc]
  · intro i
    rw [stopIndexes_append, stopIndexes_of_body hT.2.2.1,
      stopIndexes_cons_stop, List.nil_append, List.count_cons,
      List.Perm.count_eq (postludeToolStops_stopIndexes hvo
        (runLoop parse initStreamSt input).1) i]
    simp only [beq_iff_eq]
    split_ifs <;> omega
  · intro i
    rw [hwfF.2.2 i]
    split_ifs <;> omega
  · intro msg hmem
    exact postludeToolStops_no_error hvo _ msg hmem

/-- C1 at a concrete run: a stream with a blank line, a comment line, an
unparseable payload, a text delta, a started tool slot and a failure
item, enumerated by an in-order values() model. -/
theorem C1_stream_envelope_witness :
    ValidValuesOrder valuesInOrder
    ∧ StreamEnvelope jparse valuesInOrder "msg_1" "claude-3-opus"
        witnessC1input :=
  ⟨fun m => List.Perm.refl (valuesInOrder m),
   C1_stream_envelope jparse valuesInOrder "msg_1" "claude-3-opus"
     witnessC1input (fun m => List.Perm.refl (valuesInOrder m))⟩

end CCProxy

namespace CCProxy

/-- C2 (amended): per output tool index at most one content_block_start
and at most one input_json_delta are emitted, and an emitted
input_json_delta's partial_json parses successfully and is a prefix of
the final argument buffer of the started slot holding that index — not,
in general, the whole concatenation of the fragments supplied for the
slot, since fragments before the start are dropped and fragments after
the delta was sent keep accumulating without a further delta. -/
theorem C2_tool_json_delta (parse : String → Option JVal)
    (input : List (Except String String)) (k : Nat) (s : ToolCallState)
    (hlk : lookupSlot (runLoop parse initStreamSt input).1.current_tool_calls k
      = some s)
    (i : Nat) (hidx : s.claude_index = some i) :
    (toolStartIndexes (runLoop parse initStreamSt input).2.1).count i ≤ 1
    ∧ (jsonDeltaIndexes (runLoop parse initStreamSt input).2.1).count i ≤ 1
    ∧ ∀ pj, Frame.content_block_delta_json i pj
        ∈ (runLoop parse initStreamSt input).2.1 →
      (parse pj).isSome = true ∧ s.started = true
      ∧ ∃ t, s.args_buffer = pj ++ t := by
  obtain ⟨hwfF, hT, hErr⟩ := runLoop_ok parse input initStreamSt StWf_init
  obtain ⟨hc, hr, hb, hs, hj, hm, hjf, ht⟩ := hT
  refine ⟨?_, ?_, ?_⟩
  · have h0 : (startedIdxs initStreamSt.current_tool_calls).count i = 0 := by
      simp [initStreamSt, startedIdxs]
    have h4 := hs i
    rw [h0] at h4
    have h1 := hwfF.2.2 i
    rw [h1] at h4
    split_ifs at h4 <;> omega
  · have h0 : (jsonSentIdxs initStreamSt.current_tool_calls).count i = 0 := by
      simp [initStreamSt, jsonSentIdxs]
    have h4 := hj i
    rw [h0] at h4
    have h3 := jsonSent_count_le _ hwfF.1 i
    have h1 := hwfF.2.2 i
    rw [h1] at h3
    split_ifs at h3 <;> omega
  · intro pj hmem
    have hJ := hjf _ hmem
    obtain ⟨hp, k', s', hlk', hidx', hst', t, hbuf⟩ := hJ
    have hsw := hwfF.1 _ (lookupSlot_mem hlk)
    have hstarted : s.started = true := by
      cases hb2 : s.started
      · have hnone := (hsw.2.2 hb2).1
        rw [hnone] at hidx
        exact Option.noConfusion hidx
      · rfl
    have huniq := started_slot_unique hwfF hlk hlk'
      (by unfold startedProj; rw [if_pos hstarted]; exact hidx)
      (by unfold startedProj; rw [if_pos hst']; exact hidx')
    refine ⟨hp, hstarted, t, ?_⟩
    rw [huniq.2]
    exact hbuf

/-- C2 at a concrete run: the cexC2input stream, whose index-0 slot
starts, sends its json delta on the first fragment and accumulates one
more fragment afterwards. -/
theorem C2_tool_json_delta_witness :
    lookupSlot (runLoop jparse initStreamSt cexC2input).1.current_tool_calls 0
        = some cexC2slot
    ∧ cexC2slot.claude_index = some 1
    ∧ ((toolStartIndexes (runLoop jparse initStreamSt cexC2input).2.1).count 1
          ≤ 1
      ∧ (jsonDeltaIndexes (runLoop jparse initStreamSt cexC2input).2.1).count 1
          ≤ 1
      ∧ ∀ pj, Frame.content_block_delta_json 1 pj
            ∈ (runLoop jparse initStreamSt cexC2input).2.1 →
          (jparse pj).isSome = true ∧ cexC2slot.started = true
          ∧ ∃ t, cexC2slot.args_buffer = pj ++ t) :=
  ⟨rfl, rfl, C2_tool_json_delta jparse cexC2input 0 cexC2slot rfl 1 rfl⟩

/-- C2 as frozen is refuted on cexC2input: the only input_json_delta for
index 0's block carries "\x7b\x7d", which parses, while the full
fragment concatenation "\x7b\x7d\x7b\x7d" does not parse to the same
value (it does not parse at all). -/
theorem C2_counterexample : ¬ClaimC2AsStated := by
  intro h
  have hmem : Frame.content_block_delta_json 1 "\x7b\x7d"
      ∈ (runLoop jparse initStreamSt cexC2input).2.1 := by
    rw [show (runLoop jparse initStreamSt cexC2input).2.1
      = [Frame.content_block_start_tool 1 "t" "f",
         Frame.content_block_delta_json 1 "\x7b\x7d"] from rfl]
    simp
  have h2 := (h jparse cexC2input 0 cexC2slot rfl 1 rfl).2.2 "\x7b\x7d" hmem
  rw [show suppliedArgsConcat jparse cexC2input 0 = "\x7b\x7d\x7b\x7d" from rfl]
    at h2
  rw [show jparse "\x7b\x7d" = some (JVal.obj []) from rfl] at h2
  rw [show jparse "\x7b\x7d\x7b\x7d" = (none : Option JVal) from rfl] at h2
  exact Option.noConfusion h2

end CCProxy

namespace CCProxy

/-- C3 (amended): the postlude's tool content_block_stop frames are
exactly one per started slot as a multiset — the iteration order of the
HashMap's values() is unspecified, so no particular order (insertion
order included) is guaranteed. -/
theorem C3_postlude_stop_set (parse : String → Option JVal)
    (valuesOrder : List (Nat × ToolCallState) → List ToolCallState)
    (input : List (Except String String))
    (hvo : ValidValuesOrder valuesOrder) :
    List.Perm
      (postludeToolStops valuesOrder (runLoop parse initStreamSt input).1)
      ((startedIdxs
          (runLoop parse initStreamSt input).1.current_tool_calls).map
        Frame.content_block_stop) :=
  postludeToolStops_perm hvo (runLoop parse initStreamSt input).1

/-- C3 at a concrete run: the two-slot cexC3input stream under the
in-order values() model. -/
theorem C3_postlude_stop_set_witness :
    ValidValuesOrder valuesInOrder
    ∧ List.Perm
        (postludeToolStops valuesInOrder
          (runLoop jparse initStreamSt cexC3input).1)
        ((startedIdxs
            (runLoop jparse initStreamSt cexC3input).1.current_tool_calls).map
          Frame.content_block_stop) :=
  ⟨fun m => List.Perm.refl (valuesInOrder m),
   C3_postlude_stop_set jparse valuesInOrder cexC3input
     (fun m => List.Perm.refl (valuesInOrder m))⟩

set_option maxRecDepth 10000 in
/-- C3 as frozen is refuted: on cexC3input (two started slots) the
reversed-order values() model — as legitimate as any other, the order
being unspecified — emits the stops as [stop 2, stop 1], not in
insertion order [stop 1, stop 2]. -/
theorem C3_counterexample : ¬ClaimC3AsStated := by
  intro h
  have h2 := h jparse valuesReversed cexC3input
    (fun m => List.reverse_perm (m.map Prod.snd))
    (by
      rw [show startedIdxs
          (runLoop jparse initStreamSt cexC3input).1.current_tool_calls
        = [1, 2] from rfl]
      decide)
  rw [show postludeToolStops valuesReversed
      (runLoop jparse initStreamSt cexC3input).1
    = [Frame.content_block_stop 2, Frame.content_block_stop 1] from rfl] at h2
  rw [show startedIdxs
      (runLoop jparse initStreamSt cexC3input).1.current_tool_calls
    = [1, 2] from rfl] at h2
  simp at h2

end CCProxy

namespace CCProxy

/-- C4 (amended): at the end of every run (hence, the input being
arbitrary, at every point of every run) every started slot has id, name
and output index set with the index between 1 and the block counter,
json_sent implies started, unstarted slots carry no index, text deltas
go only to output index 0, started output indices are unique, and the
n-th content_block_start emitted carries output index n — the indices
follow emission order, not (in general) the order in which the start
condition (id and name known) became true, since the start transition
also waits for a chunk carrying a function object. -/
theorem C4_invariants (parse : String → Option JVal)
    (input : List (Except String String)) : C4Invariants parse input := by
  obtain ⟨hwfF, hT, hErr⟩ := runLoop_ok parse input initStreamSt StWf_init
  obtain ⟨hc, hr, hb, hs, hjc, hm, hjf, ht⟩ := hT
  unfold C4Invariants
  refine ⟨?_, ht, ?_, ?_⟩
  · intro k s hlk
    exact hwfF.1 _ (lookupSlot_mem hlk)
  · intro k1 s1 k2 s2 hl1 hl2 hst1 hst2 heq
    have hsw1 := hwfF.1 _ (lookupSlot_mem hl1)
    obtain ⟨_, _, i, hidx1, _, _⟩ := hsw1.1 hst1
    have hp1 : startedProj s1 = some i := by
      unfold startedProj
      rw [if_pos hst1]
      exact hidx1
    have hp2 : startedProj s2 = some i := by
      unfold startedProj
      rw [if_pos hst2]
      rw [← heq]
      exact hidx1
    exact (started_slot_unique hwfF hl1 hl2 hp1 hp2).1
  · rw [show initStreamSt.tool_block_counter = 0 from rfl] at hr
    simpa using hr

/-- C4 at a concrete run: the four-chunk cexC4input stream. -/
theorem C4_invariants_witness : C4Invariants jparse cexC4input :=
  C4_invariants jparse cexC4input

set_option maxRecDepth 10000 in
/-- C4 as frozen is refuted on cexC4input: slot 0's start condition (id
and name known) becomes true first — rank 1 — but its
content_block_start waits for a chunk with a function object, so slot 1
starts first and slot 0 ends with output index 2, not 1. -/
theorem C4_counterexample : ¬ClaimC4AsStated := by
  intro h
  have h2 := (h jparse cexC4input).2.2.2 0
    { id := some "a", name := some "f", args_buffer := "", json_sent := false,
      claude_index := some 2, started := true } rfl rfl
  rw [show specStartRank jparse cexC4input 0 = some 1 from rfl] at h2
  simp at h2

end CCProxy
